import Mathlib

/-!
Verification of the json2ubl schema-driven JSON-to-UBL-XML conversion engine.

This file gives a shallow embedding, in Lean 4, of the core components of the
json2ubl repository:

* the JSON value model and the Python string-conversion semantics the code
  relies on (src/json2ubl/core/serializer.py uses str() on values),
* the schema cache data model (ElemInfo mirroring one entry of the
  "elements" maps produced by src/json2ubl/core/schema_cache_builder.py),
* the XML serializer (XmlSerializer._serialize_recursive,
  XmlSerializer._create_element, XmlSerializer._get_element_namespace,
  XmlSerializer._capitalize_element_name, XmlSerializer._extract_value_for_field,
  XmlSerializer._build_element_name_lookup from src/json2ubl/core/serializer.py),
* the schema-driven field extractor (SchemaFieldExtractor.validate_and_extract
  and SchemaFieldExtractor._extract_field from
  src/json2ubl/core/schema_field_extractor.py),
* the multi-page merger (Json2UblConverter._merge_pages from
  src/json2ubl/converter.py),
* the response-envelope logic of Json2UblConverter.convert_json_dict_to_xml_dict,
* the visited-set discipline of SchemaCacheBuilder._extract_elements_from_type
  and SchemaCacheBuilder._extract_nested_from_sequence.

Embedding conventions:

* Python dicts are association lists with pairwise-distinct keys; assignment
  d[k] = v is update-in-place-or-append (dset); membership/lookup is find?.
  Iteration order is list order (Python dicts preserve insertion order).
* Python recursion is modelled with an explicit fuel argument pattern-matched
  structurally, so every definition computes by kernel reduction.  The
  serializer's source guard "depth > 50" corresponds to fuel = 51 - depth
  (fuel 0 is the exhausted guard); other fueled functions have no depth bound
  in the source and behave identically for every sufficiently large fuel.
* Python None and JSON null are the same runtime object; both are Json.null.
* Mutable visited sets are threaded explicitly: functions take the set and
  return the updated set.
-/

namespace J2U

/-- JSON-like Python values (dicts, lists, strings, ints, bools, None).
Floats are not needed by any claim and are omitted. -/
inductive Json : Type where
  | null : Json
  | bool (b : Bool) : Json
  | int (n : Int) : Json
  | str (s : String) : Json
  | arr (items : List Json) : Json
  | obj (fields : List (String × Json)) : Json
deriving Repr

/-- Single-quote character, used by the Python repr of strings. -/
def sq : String := String.singleton (Char.ofNat 39)

/-- Map-then-concatenate, used in place of flatMap so that fueled recursion
stays structural. -/
def joinMap (f : α → List β) (l : List α) : List β := (l.map f).flatten

/-- Python str()/repr() of a value, with fuel for the nested containers.
str(None) = "None", str(True) = "True", str(False) = "False"; containers
render their items with repr (string escaping is not modelled; no claim
depends on the container renderings). -/
def pyStrF : Nat → Bool → Json → String
  | 0, _, _ => ""
  | _ + 1, _, Json.null => "None"
  | _ + 1, _, Json.bool true => "True"
  | _ + 1, _, Json.bool false => "False"
  | _ + 1, _, Json.int n => toString n
  | _ + 1, asRepr, Json.str s => if asRepr then sq ++ s ++ sq else s
  | fuel + 1, _, Json.arr items =>
      "[" ++ String.intercalate ", " (items.map (fun it => pyStrF fuel true it)) ++ "]"
  | fuel + 1, _, Json.obj fields =>
      "\x7b" ++ String.intercalate ", "
        (fields.map (fun kv => sq ++ kv.1 ++ sq ++ ": " ++ pyStrF fuel true kv.2)) ++ "\x7d"

/-- Python str() of a value (fuel 100 covers every value in this file). -/
def pyStr (v : Json) : String := pyStrF 100 false v

/-- Python truthiness of a value (used by guards such as
"if not doc_type_raw" in converter.py). -/
def jTruthy : Json → Bool
  | Json.null => false
  | Json.bool b => b
  | Json.int n => n != 0
  | Json.str s => s ≠ ""
  | Json.arr items => !items.isEmpty
  | Json.obj fields => !fields.isEmpty

/-- Python dict lookup d[k] / d.get(k) on an association list (dict keys are
pairwise distinct, so the first match is the only match). -/
def dlookup (d : List (String × α)) (k : String) : Option α :=
  (d.find? (fun kv => kv.1 == k)).map (fun kv => kv.2)

/-- Python dict assignment d[k] = v: update the existing entry in place, or
append a new entry at the end. -/
def dset (d : List (String × α)) (k : String) (v : α) : List (String × α) :=
  if d.any (fun kv => kv.1 == k) then
    d.map (fun kv => if kv.1 == k then (k, v) else kv)
  else d ++ [(k, v)]

/-- Keys of a dict, in insertion order. -/
def dkeys (d : List (String × α)) : List String := d.map (fun kv => kv.1)

/-- One entry of a schema cache "elements" map, as produced by
SchemaCacheBuilder (schema_cache_builder.py lines 314-320 / 382-388):
name, type, minOccurs, maxOccurs and the nested_elements sub-map.
nested is an Option because the Python code tests the presence of the
"nested_elements" key; the cache builder always initialises it (some). -/
inductive ElemInfo : Type where
  | mk (name type minOccurs maxOccurs : String)
       (nested : Option (List (String × ElemInfo))) : ElemInfo

def ElemInfo.name : ElemInfo → String
  | .mk n _ _ _ _ => n

def ElemInfo.type : ElemInfo → String
  | .mk _ t _ _ _ => t

def ElemInfo.minOccurs : ElemInfo → String
  | .mk _ _ mn _ _ => mn

def ElemInfo.maxOccurs : ElemInfo → String
  | .mk _ _ _ mx _ => mx

def ElemInfo.nested : ElemInfo → Option (List (String × ElemInfo))
  | .mk _ _ _ _ ns => ns

/-- A schema level: the ordered map lowercase-name -> ElemInfo. -/
abbrev Spec := List (String × ElemInfo)

/-- An lxml XML element: namespace, tag, attributes (in creation order),
optional text, children (in creation order). -/
inductive Elem : Type where
  | mk (ns tag : String) (attrs : List (String × String))
       (text : Option String) (children : List Elem) : Elem

def Elem.ns : Elem → String
  | .mk n _ _ _ _ => n

def Elem.tag : Elem → String
  | .mk _ t _ _ _ => t

def Elem.attrs : Elem → List (String × String)
  | .mk _ _ a _ _ => a

def Elem.text : Elem → Option String
  | .mk _ _ _ x _ => x

def Elem.children : Elem → List Elem
  | .mk _ _ _ _ c => c

/-- UBL CommonBasicComponents namespace (serializer.py line 19). -/
def NS_CBC : String := "urn:oasis:names:specification:ubl:schema:xsd:CommonBasicComponents-2"

/-- UBL CommonAggregateComponents namespace (serializer.py line 20). -/
def NS_CAC : String := "urn:oasis:names:specification:ubl:schema:xsd:CommonAggregateComponents-2"

/-- UBL CommonExtensionComponents namespace (serializer.py line 21; defined
but never returned by the serializer's namespace logic). -/
def NS_EXT : String := "urn:oasis:names:specification:ubl:schema:xsd:CommonExtensionComponents-2"

/-- Whether needle occurs as a contiguous prefix of hay (on char lists). -/
def charsPrefix : List Char → List Char → Bool
  | [], _ => true
  | _ :: _, [] => false
  | a :: as, b :: bs => a == b && charsPrefix as bs

/-- Whether needle occurs as a contiguous sublist of hay (on char lists). -/
def charsInfix (needle : List Char) : List Char → Bool
  | [] => charsPrefix needle []
  | c :: rest => charsPrefix needle (c :: rest) || charsInfix needle rest

/-- Python "needle in hay" on strings. -/
def strContains (hay needle : String) : Bool := charsInfix needle.data hay.data

/-- Python str.lower() (ASCII suffices for schema keys). -/
def strLower (s : String) : String := String.mk (s.data.map Char.toLower)

/-- Python str.startswith(pre). -/
def strStartsWith (s pre : String) : Bool := charsPrefix pre.data s.data

/-- Split a character list at every occurrence of sep, keeping empty pieces
(Python str.split(sep) semantics for a one-character separator). -/
def splitOnSep (sep : Char) : List Char → List (List Char)
  | [] => [[]]
  | c :: rest =>
      let r := splitOnSep sep rest
      if c == sep then [] :: r
      else
        match r with
        | [] => [[c]]
        | w :: ws => (c :: w) :: ws

/-- Python s.split(sep) for a one-character separator. -/
def strSplitOn (s : String) (sep : Char) : List String :=
  (splitOnSep sep s.data).map String.mk

/-- Substring indicators for CommonBasicComponents
(serializer.py lines 364-382, in source order). -/
def basicIndicators : List String :=
  ["Code", "Amount", "Date", "Identifier", "ID", "Quantity", "Percentage",
   "Measure", "Indicator", "URI", "Rate", "Numeric", "Name", "Text",
   "String", "Time", "Currency"]

/-- Substring indicators for CommonAggregateComponents
(serializer.py lines 390-418, in source order). -/
def aggregateIndicators : List String :=
  ["Party", "Address", "Contact", "Reference", "Total", "Subtotal", "Scheme",
   "Category", "Entity", "Item", "Line", "Component", "Charge", "Allowance",
   "Delivery", "Period", "Document", "Financial", "Location", "Transport",
   "Classification", "Extension", "Means", "Terms", "Information", "Details",
   "Specification"]

/-- XmlSerializer._get_element_namespace (serializer.py lines 347-425):
the namespace of an element is chosen by substring heuristics on its tag
name alone; basic indicators first, then aggregate indicators, defaulting
to the CommonBasicComponents namespace. -/
def getElementNamespace (tag : String) : String :=
  if basicIndicators.any (fun ind => strContains tag ind) then NS_CBC
  else if aggregateIndicators.any (fun ind => strContains tag ind) then NS_CAC
  else NS_CBC

/-- Python str.capitalize(): first character uppercased, the rest lowercased. -/
def pyCapitalize (w : String) : String :=
  match w.data with
  | [] => ""
  | c :: cs => String.mk (c.toUpper :: cs.map Char.toLower)

/-- Acronym special cases of XmlSerializer._capitalize_element_name
(serializer.py lines 443-450). -/
def specialCases : List (String × String) :=
  [("id", "ID"), ("uri", "URI"), ("url", "URL"), ("abn", "ABN"),
   ("cbc", "CBC"), ("cac", "CAC")]

/-- XmlSerializer._capitalize_element_name (serializer.py lines 427-464):
special-case acronyms, otherwise split on "_" and "-" and capitalize each
word. -/
def capitalizeElementName (nm : String) : String :=
  match (specialCases.find? (fun p => p.1 == nm)).map (fun p => p.2) with
  | some special => special
  | none =>
      let words := joinMap (fun w => strSplitOn w (Char.ofNat 45)) (strSplitOn nm (Char.ofNat 95))
      String.join ((words.filter (fun w => w ≠ "")).map pyCapitalize)

/-- XmlSerializer._is_simple_type (serializer.py lines 270-284). -/
def isSimpleType (elementType : String) : Bool := strStartsWith elementType "cbc:"

/-- XmlSerializer._extract_value_for_field (serializer.py lines 286-311):
for a dict carrying a "value" key, return that entry; otherwise the value
itself (the simple-type test does not change the outcome, both branches
extract "value"). -/
def extractValueForField (v : Json) (elementType : String) : Json :=
  match v with
  | Json.obj fields =>
      if isSimpleType elementType then
        match dlookup fields "value" with
        | some inner => inner
        | none => v
      else
        match dlookup fields "value" with
        | some inner => inner
        | none => v
  | _ => v

/-- Text content assignment of _create_element (serializer.py lines 343-344):
el.text = str(text) is performed only when the passed value is not None. -/
def textOfValue (v : Json) : Option String :=
  match v with
  | Json.null => none
  | v => some (pyStr v)

/-- The dict comprehension data_keys_lower = (lowercase key -> original key)
of serializer.py line 126: per lowercase key the LAST original key wins,
key order is first-occurrence order. -/
def dataKeysLowerList (kvs : List (String × Json)) : List (String × String) :=
  kvs.foldl (fun acc kv => dset acc (strLower kv.1) kv.1) []

/-- data_keys_lower.get(schema_key_lower) of serializer.py line 159. -/
def dataKeyForLower (kvs : List (String × Json)) (kl : String) : Option String :=
  dlookup (dataKeysLowerList kvs) kl

/-- Proper element name choice of serializer.py lines 185-187:
schema_info.get("name") or _capitalize_element_name(key). -/
def displayName (klow : String) (info : ElemInfo) : String :=
  if info.name ≠ "" then info.name else capitalizeElementName klow

/-- The body of one iteration of the schema-driven loop of
XmlSerializer._serialize_recursive (serializer.py lines 153-268), emitting
the child elements contributed by one schema entry.  recur is the recursive
call at depth + 1.  The source's "single element" case appears twice in the
file (an else block at lines 217-245 carrying the attributed-scalar pattern,
and a second else block at lines 246-268 carrying the plain-scalar fallthrough;
the duplicated else does not parse in Python).  The embedding takes their
union, which is the behaviour each claim's cited lines describe: dict with a
"value" key and no nested elements is an attributed scalar, any other dict
recurses, a non-empty list contributes its first item, anything else is a
plain scalar with text. -/
def serializeEntry (recur : Json → Spec → String → List Elem)
    (kvs : List (String × Json)) (parentNs : String)
    (entry : String × ElemInfo) : List Elem :=
  let klow := entry.1
  let info := entry.2
  if strStartsWith klow "_" then []
  else
    match dataKeyForLower kvs klow with
    | none => []
    | some dataKey =>
        match dlookup kvs dataKey with
        | none => []
        | some dataValue =>
            let elementName := displayName klow info
            let elemNs := getElementNamespace elementName
            match dataValue with
            | Json.null =>
                if info.minOccurs == "1" || info.minOccurs == "true" then
                  [Elem.mk elemNs elementName [] (some "") []]
                else []
            | dataValue =>
                let nested := info.nested.getD []
                let elementType := info.type
                if info.maxOccurs == "unbounded" then
                  match dataValue with
                  | Json.arr items =>
                      items.map (fun item =>
                        match item with
                        | Json.obj fs =>
                            Elem.mk elemNs elementName [] none
                              (recur (Json.obj fs) nested parentNs)
                        | item =>
                            Elem.mk elemNs elementName []
                              (textOfValue (extractValueForField item elementType)) [])
                  | Json.obj fs =>
                      [Elem.mk elemNs elementName [] none
                        (recur (Json.obj fs) nested parentNs)]
                  | single =>
                      [Elem.mk elemNs elementName []
                        (textOfValue (extractValueForField single elementType)) []]
                else
                  match dataValue with
                  | Json.obj fs =>
                      if (dlookup fs "value").isSome && nested.isEmpty then
                        let attrib := (fs.filter (fun kv => kv.1 ≠ "value")).map
                          (fun kv => (kv.1, pyStr kv.2))
                        let textValue := pyStr ((dlookup fs "value").getD Json.null)
                        [Elem.mk elemNs elementName attrib (some textValue) []]
                      else
                        [Elem.mk elemNs elementName [] none
                          (recur (Json.obj fs) nested parentNs)]
                  | Json.arr (first :: _) =>
                      match first with
                      | Json.obj fs =>
                          [Elem.mk elemNs elementName [] none
                            (recur (Json.obj fs) nested parentNs)]
                      | first =>
                          [Elem.mk elemNs elementName []
                            (textOfValue (extractValueForField first elementType)) []]
                  | scalar =>
                      [Elem.mk elemNs elementName []
                        (textOfValue (extractValueForField scalar elementType)) []]

/-- One iteration of the empty-schema fallback loop of
XmlSerializer._serialize_recursive (serializer.py lines 129-150): elements
follow the data keys, names come from the global element-name lookup or
capitalization, None values are skipped. -/
def dataModeEntry (lookupName : String → Option String)
    (recur : Json → Spec → String → List Elem)
    (kvs : List (String × Json)) (parentNs : String)
    (p : String × String) : List Elem :=
  let klow := p.1
  let korig := p.2
  match dlookup kvs korig with
  | none => []
  | some dataValue =>
      match dataValue with
      | Json.null => []
      | dataValue =>
          let elementName :=
            match lookupName klow with
            | some nm => if nm ≠ "" then nm else capitalizeElementName klow
            | none => capitalizeElementName klow
          let elemNs := getElementNamespace elementName
          match dataValue with
          | Json.obj fs =>
              [Elem.mk elemNs elementName [] none (recur (Json.obj fs) [] parentNs)]
          | Json.arr items =>
              items.map (fun item =>
                match item with
                | Json.obj fs =>
                    Elem.mk elemNs elementName [] none (recur (Json.obj fs) [] parentNs)
                | item => Elem.mk elemNs elementName [] (some (pyStr item)) [])
          | scalar => [Elem.mk elemNs elementName [] (some (pyStr scalar)) []]

/-- XmlSerializer._serialize_recursive (serializer.py lines 93-268), returning
the list of child elements appended to the parent.  fuel = 51 - depth, so
fuel 0 is exactly the source's "depth > 50" guard; non-dict data returns
nothing; an empty schema spec triggers the data-driven fallback; otherwise
the schema entries are processed in schema order. -/
def serializeRec (lookupName : String → Option String) :
    Nat → Json → Spec → String → List Elem
  | 0, _, _, _ => []
  | fuel + 1, Json.obj kvs, spec, parentNs =>
      if spec.isEmpty then
        joinMap
          (fun p => dataModeEntry lookupName
            (fun d s n => serializeRec lookupName fuel d s n) kvs parentNs p)
          (dataKeysLowerList kvs)
      else
        joinMap
          (fun e => serializeEntry
            (fun d s n => serializeRec lookupName fuel d s n) kvs parentNs e)
          spec
  | _ + 1, _, _, _ => []

/-- Schema cache as loaded from a {DocumentType}_schema_cache.json file:
root element name, root namespace and the elements map
(schema_cache_builder.py lines 252-257; the serializer reads them with
.get and defaults, serializer.py lines 71-75). -/
structure SchemaCache : Type where
  root_element_name : Option String
  root_namespace : Option String
  elements : Spec

/-- XmlSerializer._build_element_name_lookup (serializer.py lines 466-491):
walk the cache and collect lowercase key -> correct name, later writes
winning; fueled for the nested walk. -/
def collectNames : Nat → Spec → List (String × String) → List (String × String)
  | 0, _, acc => acc
  | fuel + 1, spec, acc =>
      spec.foldl (fun acc kv =>
        if strStartsWith kv.1 "_" then acc
        else
          let acc1 := if kv.2.name ≠ "" then dset acc kv.1 kv.2.name else acc
          match kv.2.nested with
          | some nspec => if nspec.isEmpty then acc1 else collectNames fuel nspec acc1
          | none => acc1) acc

/-- The element-name lookup function of a serializer built over a cache. -/
def lookupNameOf (cache : SchemaCache) : String → Option String :=
  fun k => dlookup (collectNames 60 cache.elements []) k

/-- XmlSerializer.serialize (serializer.py lines 56-91): root element from the
cache (with document-type defaults), children from _serialize_recursive at
depth 0 (fuel 51). -/
def serialize (cache : SchemaCache) (doc : List (String × Json)) : Elem :=
  let docType := (dlookup doc "document_type").getD (Json.str "Invoice")
  let rootElement := cache.root_element_name.getD (pyStr docType)
  let rootNamespace := cache.root_namespace.getD
    ("urn:oasis:names:specification:ubl:schema:xsd:" ++ pyStr docType ++ "-2")
  Elem.mk rootNamespace rootElement [] none
    (serializeRec (lookupNameOf cache) 51 (Json.obj doc) cache.elements rootNamespace)

/-- Path concatenation of SchemaFieldExtractor.validate_and_extract
(schema_field_extractor.py line 88). -/
def pathJoin (path k : String) : String :=
  if path == "" then k else path ++ "." ++ k

/-- Whether a value is Python None / JSON null. -/
def isNull : Json → Bool
  | Json.null => true
  | _ => false

mutual

/-- SchemaFieldExtractor.validate_and_extract (schema_field_extractor.py
lines 62-112): walk the input dict; an input key with no lowercase match in
the schema level is dropped (recorded by path); a matched key is extracted
with _extract_field, and kept in the cleaned dict (original casing) only
when the extracted value is not None.  The source's wrapping of a bare
elements map into a "elements" dict is normalized away: this function takes
the elements map directly.  Fuel only bounds recursion depth; any fuel
larger than the input's nesting depth gives the source behaviour. -/
def validateAndExtract : Nat → Spec → List (String × Json) → String →
    (List (String × Json)) × List String
  | 0, _, _, _ => ([], [])
  | fuel + 1, schemaElems, kvs, path =>
      match kvs with
      | [] => ([], [])
      | (k, v) :: rest =>
          let restRes := validateAndExtract fuel schemaElems rest path
          let fieldPath := pathJoin path k
          match dlookup schemaElems (strLower k) with
          | none => (restRes.1, fieldPath :: restRes.2)
          | some fieldSchema =>
              let fieldRes := extractField fuel fieldSchema v fieldPath
              let cleaned :=
                if isNull fieldRes.1 then restRes.1 else (k, fieldRes.1) :: restRes.1
              (cleaned, fieldRes.2 ++ restRes.2)

/-- SchemaFieldExtractor._extract_field (schema_field_extractor.py lines
114-183): array-typed fields accept only lists (a non-list is dropped with
its path recorded and the field removed); items of a list are recursed when
they are dicts and the schema carries a nested_elements map, otherwise kept
as-is; non-array fields with an object-like schema (the cache builder always
writes nested_elements, so its mere presence selects this branch) accept only
dicts; anything else passes through unchanged. -/
def extractField : Nat → ElemInfo → Json → String → Json × List String
  | 0, _, _, _ => (Json.null, [])
  | fuel + 1, info, v, path =>
      let fieldType := strLower info.type
      let cardinality := ""
      let maxOccurs := info.maxOccurs
      let isArray := fieldType == "array" || strStartsWith cardinality "1.." ||
        maxOccurs == "unbounded" || (maxOccurs != "1" && maxOccurs != "0")
      if isArray then
        match v with
        | Json.arr items =>
            let r := extractItems fuel info items path 0
            (Json.arr r.1, r.2)
        | _ => (Json.null, [path])
      else if fieldType == "object" || fieldType == "xsd:complextype" ||
          info.nested.isSome then
        match v with
        | Json.obj fields =>
            match info.nested with
            | none => (Json.obj fields, [])
            | some nestedSpec =>
                let r := validateAndExtract fuel nestedSpec fields path
                (Json.obj r.1, r.2)
        | _ => (Json.null, [path])
      else (v, [])

/-- The per-item loop of the array branch of _extract_field
(schema_field_extractor.py lines 147-161). -/
def extractItems : Nat → ElemInfo → List Json → String → Nat →
    (List Json) × List String
  | _, _, [], _, _ => ([], [])
  | 0, _, _ :: _, _, _ => ([], [])
  | fuel + 1, info, item :: rest, path, idx =>
      let restRes := extractItems fuel info rest path (idx + 1)
      match item, info.nested with
      | Json.obj fields, some nestedSpec =>
          let r := validateAndExtract fuel nestedSpec fields
            (path ++ "[" ++ toString idx ++ "]")
          (Json.obj r.1 :: restRes.1, r.2 ++ restRes.2)
      | item, _ => (item :: restRes.1, restRes.2)

end

/-- The dynamic array-field set of Json2UblConverter._merge_pages
(converter.py lines 645-649): lowercase names of cache elements declared
maxOccurs="unbounded" (a Python set; its iteration order does not affect
the merge result, and the embedding keeps schema order). -/
def arrayFieldsOf (cache : SchemaCache) : List String :=
  (cache.elements.filter (fun kv => kv.2.maxOccurs == "unbounded")).map (fun kv => kv.1)

/-- The array-field merge step of Json2UblConverter._merge_pages
(converter.py lines 654-671) for one array field and one page: append the
page's non-empty value onto the running merged value, coercing a prior
scalar into a singleton list, or install it as a fresh list. -/
def mergeArrayField (page : List (String × Json)) (merged : List (String × Json))
    (fieldLower : String) : List (String × Json) :=
  match dlookup (dataKeysLowerList page) fieldLower with
  | none => merged
  | some originalKey =>
      if originalKey == "" then merged
      else
        match dlookup page originalKey with
        | none => merged
        | some pageValue =>
            if !(jTruthy pageValue) then merged
            else
              match dlookup (dataKeysLowerList merged) fieldLower with
              | some mergedKey =>
                  let coerced :=
                    match dlookup merged mergedKey with
                    | some (Json.arr _) => merged
                    | some prior => dset merged mergedKey (Json.arr [prior])
                    | none => merged
                  match dlookup coerced mergedKey, pageValue with
                  | some (Json.arr xs), Json.arr ys =>
                      dset coerced mergedKey (Json.arr (xs ++ ys))
                  | some (Json.arr xs), single =>
                      dset coerced mergedKey (Json.arr (xs ++ [single]))
                  | _, _ => coerced
              | none =>
                  match pageValue with
                  | Json.arr ys => dset merged originalKey (Json.arr ys)
                  | single => dset merged originalKey (Json.arr [single])

/-- Json2UblConverter._merge_pages (converter.py lines 627-678): deep-copy the
first page, then for each later page extend the schema-declared array fields
with the page's non-empty values and overwrite every other field whose page
value is not None. -/
def mergePages (pages : List (List (String × Json))) (cache : Option SchemaCache) :
    List (String × Json) :=
  match pages with
  | [] => []
  | first :: rest =>
      let arrayFields :=
        match cache with
        | some c => arrayFieldsOf c
        | none => []
      rest.foldl (fun merged page =>
        let afterArrays := arrayFields.foldl (mergeArrayField page) merged
        page.foldl (fun m kv =>
          if !(arrayFields.contains (strLower kv.1)) && !(isNull kv.2) then
            dset m kv.1 kv.2
          else m) afterArrays) first

/-- Numeric UBL type code to document type name (UNCL 1001), the static
lookup table NUMERIC_TYPE_TO_DOCUMENT_TYPE (declared in
src/json2ubl/core/mapper.py lines 34-100; converter.py imports the same
table from its constants module). -/
def NUMERIC_TYPE_TO_DOCUMENT_TYPE : List (String × String) :=
  [("1", "Catalogue"), ("10", "ContractNotice"), ("11", "PriorInformationNotice"),
   ("129", "CatalogueRequest"), ("140", "Forecast"), ("141", "ForecastRevision"),
   ("142", "InventoryReport"), ("143", "ProductActivity"), ("144", "RetailEvent"),
   ("145", "StockAvailabilityReport"), ("146", "TradeItemLocationProfile"), ("147", "TransportProgressStatus"),
   ("148", "TransportProgressStatusRequest"), ("149", "TransportServiceDescription"), ("15", "ContractAwardNotice"),
   ("150", "TransportServiceDescriptionRequest"), ("17", "CallForTenders"), ("170", "CataloguePricingUpdate"),
   ("171", "CatalogueItemSpecificationUpdate"), ("172", "CatalogueDeletion"), ("21", "ItemInformationRequest"),
   ("220", "Order"), ("221", "OrderResponseSimple"), ("227", "OrderChange"),
   ("230", "OrderCancellation"), ("231", "OrderResponse"), ("232", "FulfilmentCancellation"),
   ("24", "AwardedNotification"), ("25", "UnawardedNotification"), ("271", "PackingList"),
   ("310", "RequestForQuotation"), ("311", "ApplicationResponse"), ("312", "DocumentStatus"),
   ("313", "DocumentStatusRequest"), ("315", "Quotation"), ("325", "Statement"),
   ("326", "UtilityStatement"), ("380", "Invoice"), ("381", "CreditNote"),
   ("383", "DebitNote"), ("389", "SelfBilledInvoice"), ("396", "SelfBilledCreditNote"),
   ("42", "TransportationStatus"), ("43", "TransportationStatusRequest"), ("430", "RemittanceAdvice"),
   ("447", "GuaranteeCertificate"), ("45", "TenderReceipt"), ("50", "Tender"),
   ("54", "TendererQualification"), ("55", "TendererQualificationResponse"), ("6", "CertificateOfOrigin"),
   ("610", "ForwardingInstructions"), ("632", "DespatchAdvice"), ("633", "ReceiptAdvice"),
   ("635", "InstructionForReturns"), ("705", "BillOfLading"), ("71", "Reminder"),
   ("716", "Waybill"), ("744", "GoodsItemItinerary"), ("76", "TransportExecutionPlanRequest"),
   ("77", "TransportExecutionPlan"), ("780", "FreightInvoice"), ("916", "AttachedDocument"),
   ("92", "ExceptionCriteria"), ("93", "ExceptionNotification")]

/-- Python type(x).__name__ for the values of the Json model. -/
def pyTypeName : Json → String
  | Json.null => "NoneType"
  | Json.bool _ => "bool"
  | Json.int _ => "int"
  | Json.str _ => "str"
  | Json.arr _ => "list"
  | Json.obj _ => "dict"

/-- Json2UblConverter._normalize_keys_recursive (converter.py lines 86-96):
lowercase every dict key recursively, through dicts and lists. -/
def normalizeKeys : Nat → Json → Json
  | 0, v => v
  | fuel + 1, Json.obj kvs => Json.obj (kvs.map (fun kv => (strLower kv.1, normalizeKeys fuel kv.2)))
  | fuel + 1, Json.arr items => Json.arr (items.map (fun it => normalizeKeys fuel it))
  | _ + 1, v => v

/-- One converted document of a conversion response (converter.py
lines 289-296). -/
structure ConvDocOut : Type where
  id : Json
  xml : String
  unmapped_fields : List String
  validation_errors : Option (List String)

/-- The summary block of a conversion response (converter.py lines 297-301). -/
structure ConvSummary : Type where
  total_inputs : Nat
  files_created : Nat
  document_types : List (String × Nat)

/-- The full response dict of Json2UblConverter.convert_json_dict_to_xml_dict:
it always carries the documents list, the summary and the error_response
(a string, or the to_dict() of a DocumentTypeError). -/
structure ConvResponse : Type where
  documents : List ConvDocOut
  summary : ConvSummary
  error_response : Option Json

/-- The effectful collaborators of convert_json_dict_to_xml_dict, abstracted
as oracles: schema-cache loading (converter.py line 240), the mapper call
(line 246, yielding the dropped-field list), serializer plus etree.tostring
(lines 254-284, yielding the XML string) and the validator call (lines
257-265).  Except.error stands for a raised Python exception. -/
structure ConvOracle : Type where
  schemaLoad : Except String SchemaCache
  mapStep : Except String (List String)
  serializeStep : Except String String
  validateStep : Except String Unit

/-- The to_dict() shape of a raised DocumentTypeError (exceptions.py
lines 13-19). -/
def docTypeErrorDict (message errorCode : String) : Json :=
  Json.obj [("error_code", Json.str errorCode), ("message", Json.str message)]

/-- The all-empty summary used by every error return of
convert_json_dict_to_xml_dict. -/
def emptySummary : ConvSummary := ConvSummary.mk 0 0 []

/-- Json2UblConverter.convert_json_dict_to_xml_dict (converter.py lines
154-315).  The whole body is wrapped in try/except Exception, so a failing
collaborator (an Except.error oracle) reaches the final handler, which
returns the error envelope; non-dict input, a falsy document_type and an
unknown numeric code return their specific error envelopes before any
collaborator runs; on success exactly one document is returned and
error_response is None (a validator failure is only attached as
validation_errors metadata, never escalated). -/
def convertJsonDictToXmlDict (oracle : ConvOracle) (documentDict : Json) :
    ConvResponse :=
  match documentDict with
  | Json.obj kvs0 =>
      let normalized := normalizeKeys 100 (Json.obj kvs0)
      let nkvs := match normalized with | Json.obj l => l | _ => []
      let docId := (dlookup nkvs "id").getD (Json.str "UNKNOWN")
      let docTypeRaw := (dlookup nkvs "document_type").getD Json.null
      if !(jTruthy docTypeRaw) then
        ConvResponse.mk [] emptySummary
          (some (docTypeErrorDict "Missing required field: document_type"
            "MISSING_DOCUMENT_TYPE"))
      else
        match dlookup NUMERIC_TYPE_TO_DOCUMENT_TYPE (pyStr docTypeRaw) with
        | none =>
            ConvResponse.mk [] emptySummary
              (some (docTypeErrorDict
                ("Invalid document_type: " ++ pyStr docTypeRaw)
                "INVALID_DOCUMENT_TYPE"))
        | some documentType =>
            match oracle.schemaLoad with
            | Except.error e =>
                ConvResponse.mk [] emptySummary
                  (some (Json.str ("Failed to convert document: " ++ e)))
            | Except.ok _cache =>
                match oracle.mapStep with
                | Except.error e =>
                    ConvResponse.mk [] emptySummary
                      (some (Json.str ("Failed to convert document: " ++ e)))
                | Except.ok droppedFields =>
                    match oracle.serializeStep with
                    | Except.error e =>
                        ConvResponse.mk [] emptySummary
                          (some (Json.str ("Failed to convert document: " ++ e)))
                    | Except.ok xmlString =>
                        let validationErrors :=
                          match oracle.validateStep with
                          | Except.ok _ => none
                          | Except.error e => some [e]
                        ConvResponse.mk
                          [ConvDocOut.mk docId xmlString droppedFields validationErrors]
                          (ConvSummary.mk 1 0 [(documentType, 1)]) none
  | other =>
      ConvResponse.mk [] emptySummary
        (some (Json.str ("Expected dict, got " ++ pyTypeName other)))


/-- Python s.endswith(suffix). -/
def strEndsWith (s suffix : String) : Bool :=
  charsPrefix suffix.data.reverse s.data.reverse

/-- Python ref.split(":")[-1] if ":" in ref else ref, the local part of a
namespace-prefixed XSD name (schema_cache_builder.py lines 289, 324, 392). -/
def localName (s : String) : String :=
  ((strSplitOn s (Char.ofNat 58)).getLast?).getD s

/-- One xs:element declaration inside an xs:sequence: the name/ref/type/
minOccurs/maxOccurs attributes read by the cache builder (absent attributes
are None for name, "" for type and ref via .get defaults, "1" for the
occurs pair). -/
structure XsdElemDecl : Type where
  name : Option String
  ref : String
  type : String
  minOccurs : Option String
  maxOccurs : Option String

/-- One named xs:complexType: its xs:sequence child when present (the
simpleContent/attribute side of the builder is not needed by the visited-set
claims and is not modelled). -/
structure XsdTypeDef : Type where
  name : String
  sequence : Option (List XsdElemDecl)

/-- The loaded XSD universe seen by the builder: all named complex types of
the main document and the loaded common-component schemas flattened in their
search order, and the element-ref cache built by _cache_element_refs
(schema_cache_builder.py lines 212-219). -/
structure XsdEnv : Type where
  typeDefs : List XsdTypeDef
  elemRefCache : List (String × String)

/-- SchemaCacheBuilder._find_type (schema_cache_builder.py lines 546-614):
first match on the exact name across the loaded roots, then a retry with
the UBL "Type" suffix. -/
def findTypeDef (env : XsdEnv) (typeName : String) : Option XsdTypeDef :=
  match env.typeDefs.find? (fun t => t.name == typeName) with
  | some t => some t
  | none =>
      if !(strEndsWith typeName "Type") then
        env.typeDefs.find? (fun t => t.name == typeName ++ "Type")
      else none

/-- SchemaCacheBuilder._get_element_name (schema_cache_builder.py lines
863-873): the name attribute, else the local part of the ref attribute. -/
def xsdElemName (e : XsdElemDecl) : Option String :=
  match e.name with
  | some n => some n
  | none => if e.ref ≠ "" then some (localName e.ref) else none

/-- Python set.add on the threaded visited set. -/
def sInsert (v : List String) (x : String) : List String :=
  if v.contains x then v else x :: v

/-- Python set.discard on the threaded visited set. -/
def sRemove (v : List String) (x : String) : List String := v.erase x

/-- The element-ref resolution shared by both extraction passes
(schema_cache_builder.py lines 324-330 and 392-398): the local name of the
declared type, resolved through the element-ref cache when the type is
namespace-prefixed and known there. -/
def resolveActualTypeName (env : XsdEnv) (elemType : String) : String :=
  let nestedLocal := localName elemType
  if strContains elemType ":" then
    match dlookup env.elemRefCache nestedLocal with
    | some t => t
    | none => nestedLocal
  else nestedLocal

mutual

/-- The sequence loop of SchemaCacheBuilder._extract_nested_from_sequence
(schema_cache_builder.py lines 372-426) with the mutable visited set and the
accumulating nested map threaded through: for each element of the sequence,
record name/type/cardinality, and when the resolved type is not on the
current path, push it, recurse into its sequence at depth + 1, and pop it
again before moving to the next sibling.  Fuel only bounds the recursion
depth; the source's own bound is maxDepth.  The two functions are mutually
recursive through the fuel. -/
def extractNestedLoop : Nat → XsdEnv → List XsdElemDecl → Spec →
    List String → Nat → Nat → Spec × List String
  | 0, _, _, acc, visited, _, _ => (acc, visited)
  | fuel + 1, env, seqElems, acc, visited, depth, maxDepth =>
      match seqElems with
      | [] => (acc, visited)
      | e :: rest =>
          match xsdElemName e with
          | none => extractNestedLoop fuel env rest acc visited depth maxDepth
          | some nm =>
              let lower := strLower nm
              let elemType := if e.type ≠ "" then e.type else e.ref
              let occMin := e.minOccurs.getD "1"
              let occMax := e.maxOccurs.getD "1"
              let baseInfo := ElemInfo.mk nm elemType occMin occMax (some [])
              let step : ElemInfo × List String :=
                if elemType ≠ "" && depth < maxDepth then
                  let actual := resolveActualTypeName env elemType
                  if !(visited.contains actual) then
                    let visited1 := sInsert visited actual
                    match findTypeDef env actual with
                    | some td =>
                        match td.sequence with
                        | some innerSeq =>
                            let inner := extractNestedFromSequence fuel env innerSeq
                              visited1 (depth + 1) maxDepth
                            (ElemInfo.mk nm elemType occMin occMax (some inner.1),
                             sRemove inner.2 actual)
                        | none => (baseInfo, sRemove visited1 actual)
                    | none => (baseInfo, sRemove visited1 actual)
                  else (baseInfo, visited)
                else (baseInfo, visited)
              extractNestedLoop fuel env rest (dset acc lower step.1) step.2
                depth maxDepth

/-- SchemaCacheBuilder._extract_nested_from_sequence (schema_cache_builder.py
lines 358-428): the depth guard, then the sequence loop. -/
def extractNestedFromSequence : Nat → XsdEnv → List XsdElemDecl →
    List String → Nat → Nat → Spec × List String
  | 0, _, _, visited, _, _ => ([], visited)
  | fuel + 1, env, seqElems, visited, depth, maxDepth =>
      if depth ≥ maxDepth then ([], visited)
      else extractNestedLoop fuel env seqElems [] visited depth maxDepth

end

/-- The per-child body of the sequence loop of
SchemaCacheBuilder._extract_elements_from_type (schema_cache_builder.py
lines 302-352): unlike the nested pass, the resolved child type pushed onto
the visited set before descending is never popped afterwards. -/
def extractElementsLoop : Nat → XsdEnv → List XsdElemDecl →
    Spec → List String → Nat → Nat → Spec × List String
  | 0, _, _, acc, visited, _, _ => (acc, visited)
  | fuel + 1, env, seqElems, acc, visited, depth, maxDepth =>
      match seqElems with
      | [] => (acc, visited)
      | e :: rest =>
          match xsdElemName e with
          | none => extractElementsLoop fuel env rest acc visited depth maxDepth
          | some nm =>
              let lower := strLower nm
              let elemType := if e.type ≠ "" then e.type else e.ref
              let occMin := e.minOccurs.getD "1"
              let occMax := e.maxOccurs.getD "1"
              let baseInfo := ElemInfo.mk nm elemType occMin occMax (some [])
              let step : ElemInfo × List String :=
                if elemType ≠ "" && depth < maxDepth then
                  let actual := resolveActualTypeName env elemType
                  if !(visited.contains actual) then
                    let visited1 := sInsert visited actual
                    match findTypeDef env actual with
                    | some td =>
                        match td.sequence with
                        | some nestedSeq =>
                            let nested := extractNestedFromSequence fuel env nestedSeq
                              visited1 (depth + 1) maxDepth
                            (ElemInfo.mk nm elemType occMin occMax (some nested.1),
                             nested.2)
                        | none => (baseInfo, visited1)
                    | none => (baseInfo, visited1)
                  else (baseInfo, visited)
                else (baseInfo, visited)
              extractElementsLoop fuel env rest (dset acc lower step.1) step.2
                depth maxDepth

/-- SchemaCacheBuilder._extract_elements_from_type (schema_cache_builder.py
lines 267-356) with the visited set threaded: guard on the path and the
depth ceiling, push the type, resolve it, walk its sequence, and pop the
type on the normal exit; an unresolvable type or a type without a sequence
returns early without popping. -/
def extractElementsFromType (fuel : Nat) (env : XsdEnv) (typeRef : String)
    (visited : List String) (depth maxDepth : Nat) : Spec × List String :=
  if visited.contains typeRef || depth > maxDepth then ([], visited)
  else
    let visited0 := sInsert visited typeRef
    let localType := localName typeRef
    match findTypeDef env localType with
    | none => ([], visited0)
    | some td =>
        match td.sequence with
        | none => ([], visited0)
        | some seqElems =>
            let r := extractElementsLoop fuel env seqElems [] visited0 depth maxDepth
            (r.1, sRemove r.2 typeRef)

/-- Tag and attribute-name validity enforced by lxml when an element is
created (etree.SubElement raises ValueError on an invalid tag, e.g. one
containing a space); modelled as an NCName-like check. -/
def validXmlName (s : String) : Bool :=
  match s.data with
  | [] => false
  | c :: cs =>
      (c.isAlpha || c == Char.ofNat 95) &&
        (c :: cs).all (fun d => d.isAlphanum || d == Char.ofNat 95 ||
          d == Char.ofNat 45 || d == Char.ofNat 46)

/-- XmlSerializer._create_element (serializer.py lines 313-345) in the
exception-aware embedding: lxml raises on an invalid tag or attribute name,
and _serialize_recursive contains no try/except, so the error propagates. -/
def mkElemE (ns tag : String) (attrs : List (String × String))
    (text : Option String) (children : List Elem) : Except String Elem :=
  if validXmlName tag && attrs.all (fun kv => validXmlName kv.1) then
    Except.ok (Elem.mk ns tag attrs text children)
  else Except.error ("Invalid tag name " ++ sq ++ tag ++ sq)

/-- Sequence a fallible function over a list (the loops of
_serialize_recursive abort at the first raised exception). -/
def mapE (f : α → Except ε β) : List α → Except ε (List β)
  | [] => Except.ok []
  | x :: rest =>
      match f x with
      | Except.error e => Except.error e
      | Except.ok y =>
          match mapE f rest with
          | Except.error e => Except.error e
          | Except.ok ys => Except.ok (y :: ys)

/-- joinMap in the Except monad. -/
def joinMapE (f : α → Except ε (List β)) (l : List α) : Except ε (List β) :=
  match mapE f l with
  | Except.error e => Except.error e
  | Except.ok ys => Except.ok ys.flatten

/-- serializeEntry in the exception-aware embedding: identical dispatch, with
every element creation able to raise and no per-field handler, so a failure
in any branch aborts the whole entry and propagates to the caller. -/
def serializeEntryE (recur : Json → Spec → String → Except String (List Elem))
    (kvs : List (String × Json)) (parentNs : String)
    (entry : String × ElemInfo) : Except String (List Elem) :=
  let klow := entry.1
  let info := entry.2
  if strStartsWith klow "_" then Except.ok []
  else
    match dataKeyForLower kvs klow with
    | none => Except.ok []
    | some dataKey =>
        match dlookup kvs dataKey with
        | none => Except.ok []
        | some dataValue =>
            let elementName := displayName klow info
            let elemNs := getElementNamespace elementName
            match dataValue with
            | Json.null =>
                if info.minOccurs == "1" || info.minOccurs == "true" then
                  match mkElemE elemNs elementName [] (some "") [] with
                  | Except.error e => Except.error e
                  | Except.ok el => Except.ok [el]
                else Except.ok []
            | dataValue =>
                let nested := info.nested.getD []
                let elementType := info.type
                if info.maxOccurs == "unbounded" then
                  match dataValue with
                  | Json.arr items =>
                      mapE (fun item =>
                        match item with
                        | Json.obj fs =>
                            match recur (Json.obj fs) nested parentNs with
                            | Except.error e => Except.error e
                            | Except.ok ch => mkElemE elemNs elementName [] none ch
                        | item =>
                            mkElemE elemNs elementName []
                              (textOfValue (extractValueForField item elementType)) [])
                        items
                  | Json.obj fs =>
                      match recur (Json.obj fs) nested parentNs with
                      | Except.error e => Except.error e
                      | Except.ok ch =>
                          match mkElemE elemNs elementName [] none ch with
                          | Except.error e => Except.error e
                          | Except.ok el => Except.ok [el]
                  | single =>
                      match mkElemE elemNs elementName []
                        (textOfValue (extractValueForField single elementType)) [] with
                      | Except.error e => Except.error e
                      | Except.ok el => Except.ok [el]
                else
                  match dataValue with
                  | Json.obj fs =>
                      if (dlookup fs "value").isSome && nested.isEmpty then
                        let attrib := (fs.filter (fun kv => kv.1 ≠ "value")).map
                          (fun kv => (kv.1, pyStr kv.2))
                        let textValue := pyStr ((dlookup fs "value").getD Json.null)
                        match mkElemE elemNs elementName attrib (some textValue) [] with
                        | Except.error e => Except.error e
                        | Except.ok el => Except.ok [el]
                      else
                        match recur (Json.obj fs) nested parentNs with
                        | Except.error e => Except.error e
                        | Except.ok ch =>
                            match mkElemE elemNs elementName [] none ch with
                            | Except.error e => Except.error e
                            | Except.ok el => Except.ok [el]
                  | Json.arr (first :: _) =>
                      match first with
                      | Json.obj fs =>
                          match recur (Json.obj fs) nested parentNs with
                          | Except.error e => Except.error e
                          | Except.ok ch =>
                              match mkElemE elemNs elementName [] none ch with
                              | Except.error e => Except.error e
                              | Except.ok el => Except.ok [el]
                      | first =>
                          match mkElemE elemNs elementName []
                            (textOfValue (extractValueForField first elementType)) [] with
                          | Except.error e => Except.error e
                          | Except.ok el => Except.ok [el]
                  | scalar =>
                      match mkElemE elemNs elementName []
                        (textOfValue (extractValueForField scalar elementType)) [] with
                      | Except.error e => Except.error e
                      | Except.ok el => Except.ok [el]

/-- dataModeEntry in the exception-aware embedding (serializer.py lines
129-150): the fallback loop creates elements named after the data keys, and
an invalid data key makes lxml raise with no handler in scope. -/
def dataModeEntryE (lookupName : String → Option String)
    (recur : Json → Spec → String → Except String (List Elem))
    (kvs : List (String × Json)) (parentNs : String)
    (p : String × String) : Except String (List Elem) :=
  let klow := p.1
  let korig := p.2
  match dlookup kvs korig with
  | none => Except.ok []
  | some dataValue =>
      match dataValue with
      | Json.null => Except.ok []
      | dataValue =>
          let elementName :=
            match lookupName klow with
            | some nm => if nm ≠ "" then nm else capitalizeElementName klow
            | none => capitalizeElementName klow
          let elemNs := getElementNamespace elementName
          match dataValue with
          | Json.obj fs =>
              match recur (Json.obj fs) [] parentNs with
              | Except.error e => Except.error e
              | Except.ok ch =>
                  match mkElemE elemNs elementName [] none ch with
                  | Except.error e => Except.error e
                  | Except.ok el => Except.ok [el]
          | Json.arr items =>
              mapE (fun item =>
                match item with
                | Json.obj fs =>
                    match recur (Json.obj fs) [] parentNs with
                    | Except.error e => Except.error e
                    | Except.ok ch => mkElemE elemNs elementName [] none ch
                | item => mkElemE elemNs elementName [] (some (pyStr item)) []) items
          | scalar =>
              match mkElemE elemNs elementName [] (some (pyStr scalar)) [] with
              | Except.error e => Except.error e
              | Except.ok el => Except.ok [el]

/-- XmlSerializer._serialize_recursive in the exception-aware embedding:
the per-field dispatch has no try/except, so the first exception raised
while serializing any field aborts the whole recursion. -/
def serializeRecE (lookupName : String → Option String) :
    Nat → Json → Spec → String → Except String (List Elem)
  | 0, _, _, _ => Except.ok []
  | fuel + 1, Json.obj kvs, spec, parentNs =>
      if spec.isEmpty then
        joinMapE
          (fun p => dataModeEntryE lookupName
            (fun d s n => serializeRecE lookupName fuel d s n) kvs parentNs p)
          (dataKeysLowerList kvs)
      else
        joinMapE
          (fun e => serializeEntryE
            (fun d s n => serializeRecE lookupName fuel d s n) kvs parentNs e)
          spec
  | _ + 1, _, _, _ => Except.ok []

/-- XmlSerializer.serialize (serializer.py lines 56-91) in the
exception-aware embedding: the try/except in serialize only logs and
re-raises (line 89-91), so a failure inside _serialize_recursive escapes to
the caller and no tree is produced. -/
def serializeE (cache : SchemaCache) (doc : List (String × Json)) :
    Except String Elem :=
  let docType := (dlookup doc "document_type").getD (Json.str "Invoice")
  let rootElement := cache.root_element_name.getD (pyStr docType)
  let rootNamespace := cache.root_namespace.getD
    ("urn:oasis:names:specification:ubl:schema:xsd:" ++ pyStr docType ++ "-2")
  match serializeRecE (lookupNameOf cache) 51 (Json.obj doc) cache.elements
    rootNamespace with
  | Except.error e => Except.error e
  | Except.ok children => Except.ok (Elem.mk rootNamespace rootElement [] none children)

/-- The namespace rule as the specification words it (spec.md section 4.4:
"Determine the child's namespace from its declared type prefix
(basic-components vs aggregate-components vs extension namespace), falling
back to the parent's namespace if the type has no recognizable prefix").
This definition follows the claim's words, for comparison against the
source-derived getElementNamespace. -/
def specNamespaceOfType (elementType parentNs : String) : String :=
  if strStartsWith elementType "cbc:" then NS_CBC
  else if strStartsWith elementType "cac:" then NS_CAC
  else if strStartsWith elementType "ext:" then NS_EXT
  else parentNs

/-- Every element of a tree carries the namespace that the tag-name
heuristic getElementNamespace assigns to its tag. -/
inductive NsOk : Elem → Prop where
  | mk (ns tag : String) (attrs : List (String × String)) (text : Option String)
      (children : List Elem) (hns : ns = getElementNamespace tag)
      (hch : ∀ c ∈ children, NsOk c) :
      NsOk (Elem.mk ns tag attrs text children)

/-- Whether a value is a Python list. -/
def isList : Json → Bool
  | Json.arr _ => true
  | _ => false

/-- XSD environment of the C6 analysis: a root type whose sequence declares
two children of the same shared type, which itself has one scalar child. -/
def c6env : XsdEnv :=
  XsdEnv.mk
    [XsdTypeDef.mk "RootType"
      (some [XsdElemDecl.mk (some "First") "" "SharedType" none none,
             XsdElemDecl.mk (some "Second") "" "SharedType" none none]),
     XsdTypeDef.mk "SharedType"
      (some [XsdElemDecl.mk (some "Leaf") "" "" none none])]
    []

mutual

/-- Two JSON values that contain the same data and differ only in the order
of their object keys, at any nesting level: objects are related by a
permutation whose corresponding entries have equal keys and equivalent
values; arrays keep their order. -/
inductive JEquiv : Json → Json → Prop where
  | null : JEquiv Json.null Json.null
  | bool (b : Bool) : JEquiv (Json.bool b) (Json.bool b)
  | int (n : Int) : JEquiv (Json.int n) (Json.int n)
  | str (s : String) : JEquiv (Json.str s) (Json.str s)
  | arr {xs ys : List Json} : JEquivList xs ys →
      JEquiv (Json.arr xs) (Json.arr ys)
  | obj {l1 l2 l2' : List (String × Json)} :
      JEquivPairs l1 l2' → l2'.Perm l2 → JEquiv (Json.obj l1) (Json.obj l2)

/-- Pointwise JEquiv on lists (array items, order kept). -/
inductive JEquivList : List Json → List Json → Prop where
  | nil : JEquivList [] []
  | cons {x y : Json} {xs ys : List Json} : JEquiv x y → JEquivList xs ys →
      JEquivList (x :: xs) (y :: ys)

/-- Pointwise equality of keys and JEquiv of values on dict entry lists. -/
inductive JEquivPairs : List (String × Json) → List (String × Json) → Prop where
  | nil : JEquivPairs [] []
  | cons (k : String) {v w : Json} {l1 l2 : List (String × Json)} :
      JEquiv v w → JEquivPairs l1 l2 →
      JEquivPairs ((k, v) :: l1) ((k, w) :: l2)

end

/-- Serializability conditions for one schema entry of a document dict, with
recurWf checking nested dicts: whenever the serializer would recurse into an
object value, the governing nested spec is non-empty (an empty spec switches
the serializer to its data-key-ordered fallback) and the object is itself
well-formed; attributed scalars (a dict with a "value" key under an empty
nested spec) and plain scalars need nothing. -/
def wfEntry (recurWf : Spec → Json → Bool) (kvs : List (String × Json))
    (e : String × ElemInfo) : Bool :=
  match dataKeyForLower kvs e.1 with
  | none => true
  | some dk =>
      match dlookup kvs dk with
      | none => true
      | some v =>
          let nested := e.2.nested.getD []
          match v with
          | Json.null => true
          | Json.arr items =>
              if e.2.maxOccurs == "unbounded" then
                items.all (fun item =>
                  match item with
                  | Json.obj fs => !nested.isEmpty && recurWf nested (Json.obj fs)
                  | _ => true)
              else
                match items with
                | Json.obj fs :: _ => !nested.isEmpty && recurWf nested (Json.obj fs)
                | _ => true
          | Json.obj fs =>
              if e.2.maxOccurs == "unbounded" then
                !nested.isEmpty && recurWf nested (Json.obj fs)
              else if (dlookup fs "value").isSome && nested.isEmpty then true
              else !nested.isEmpty && recurWf nested (Json.obj fs)
          | _ => true

/-- Serializability of a document under a schema spec: every visited dict
has pairwise-distinct lowercased keys and every entry satisfies wfEntry,
recursively.  Fuel matches serializeRec's fuel. -/
def wfRec : Nat → Spec → Json → Bool
  | 0, _, _ => true
  | fuel + 1, spec, Json.obj kvs =>
      decide (((dkeys kvs).map strLower).Nodup) &&
        spec.all (fun e => wfEntry (fun s d => wfRec fuel s d) kvs e)
  | _ + 1, _, _ => true

/-- Equality of two XML trees up to attribute values/order and text: same
namespace, same tag, and pairwise shape-equal children in the same order -
exactly the "element order" the determinism claim is about. -/
inductive ShapeEq : Elem → Elem → Prop where
  | mk (ns tag : String) (a1 a2 : List (String × String))
      (t1 t2 : Option String) (ch1 ch2 : List Elem) :
      List.Forall₂ ShapeEq ch1 ch2 →
      ShapeEq (Elem.mk ns tag a1 t1 ch1) (Elem.mk ns tag a2 t2 ch2)

/-!
Theorems.  Each claim Cn of the specification review is settled below; helper
lemmas are shared, claim-level theorems are self-contained.
-/

theorem mem_joinMap {f : α → List β} {l : List α} {b : β} :
    b ∈ joinMap f l ↔ ∃ a ∈ l, b ∈ f a := by
  unfold joinMap
  rw [List.mem_flatten]
  constructor
  · rintro ⟨x, hx, hb⟩
    obtain ⟨a, ha, rfl⟩ := List.mem_map.mp hx
    exact ⟨a, ha, hb⟩
  · rintro ⟨a, ha, hb⟩
    exact ⟨f a, List.mem_map.mpr ⟨a, ha, rfl⟩, hb⟩

theorem serializeEntry_nsOk
    (recur : Json → Spec → String → List Elem)
    (hrec : ∀ d s n, ∀ el ∈ recur d s n, NsOk el)
    (kvs : List (String × Json)) (parentNs : String) (entry : String × ElemInfo) :
    ∀ el ∈ serializeEntry recur kvs parentNs entry, NsOk el := by
  intro el hel
  simp only [serializeEntry] at hel
  repeat' split at hel
  all_goals first
    | exact absurd hel (List.not_mem_nil _)
    | (rw [List.mem_singleton] at hel
       subst hel
       refine NsOk.mk _ _ _ _ _ rfl ?_
       first
         | exact hrec _ _ _
         | (intro c hc
            cases hc))
    | (rw [List.mem_map] at hel
       obtain ⟨item, hmem, hitem⟩ := hel
       split at hitem <;>
         (subst hitem
          refine NsOk.mk _ _ _ _ _ rfl ?_
          first
            | exact hrec _ _ _
            | (intro c hc
               cases hc)))

theorem dataModeEntry_nsOk (lookupName : String → Option String)
    (recur : Json → Spec → String → List Elem)
    (hrec : ∀ d s n, ∀ el ∈ recur d s n, NsOk el)
    (kvs : List (String × Json)) (parentNs : String) (p : String × String) :
    ∀ el ∈ dataModeEntry lookupName recur kvs parentNs p, NsOk el := by
  intro el hel
  simp only [dataModeEntry] at hel
  repeat' split at hel
  all_goals first
    | exact absurd hel (List.not_mem_nil _)
    | (rw [List.mem_singleton] at hel
       subst hel
       refine NsOk.mk _ _ _ _ _ rfl ?_
       first
         | exact hrec _ _ _
         | (intro c hc
            cases hc))
    | (rw [List.mem_map] at hel
       obtain ⟨item, hmem, hitem⟩ := hel
       split at hitem <;>
         (subst hitem
          refine NsOk.mk _ _ _ _ _ rfl ?_
          first
            | exact hrec _ _ _
            | (intro c hc
               cases hc)))

theorem serializeRec_nsOk (lookupName : String → Option String) :
    ∀ (fuel : Nat) (d : Json) (spec : Spec) (parentNs : String),
      ∀ el ∈ serializeRec lookupName fuel d spec parentNs, NsOk el := by
  intro fuel
  induction fuel with
  | zero =>
      intro d spec pns el hel
      exact absurd hel (List.not_mem_nil _)
  | succ n ih =>
      intro d spec pns el hel
      match d with
      | Json.obj kvs =>
          simp only [serializeRec] at hel
          split at hel
          · obtain ⟨p, _, hmem⟩ := mem_joinMap.mp hel
            exact dataModeEntry_nsOk lookupName _ (fun a b c => ih a b c) kvs pns p el hmem
          · obtain ⟨e, _, hmem⟩ := mem_joinMap.mp hel
            exact serializeEntry_nsOk _ (fun a b c => ih a b c) kvs pns e el hmem
      | Json.null => simp only [serializeRec] at hel; exact absurd hel (List.not_mem_nil _)
      | Json.bool b => simp only [serializeRec] at hel; exact absurd hel (List.not_mem_nil _)
      | Json.int k => simp only [serializeRec] at hel; exact absurd hel (List.not_mem_nil _)
      | Json.str st => simp only [serializeRec] at hel; exact absurd hel (List.not_mem_nil _)
      | Json.arr xs => simp only [serializeRec] at hel; exact absurd hel (List.not_mem_nil _)

/-- C1, corrected: the source claim said the namespace of every emitted
element is determined by its declared schema type's prefix (cbc:/cac:/ext:)
with a fallback to the parent namespace.  In the code the declared type and
the parent namespace are never consulted: _create_element passes only the
tag to _get_element_namespace, so every element the serializer emits, at any
depth, carries the namespace assigned to its tag name by the substring
heuristic getElementNamespace (basic indicator -> CBC, else aggregate
indicator -> CAC, else CBC). -/
theorem c1_namespace_from_tag_heuristic (lookupName : String → Option String)
    (fuel : Nat) (d : Json) (spec : Spec) (parentNs : String) :
    ∀ el ∈ serializeRec lookupName fuel d spec parentNs, NsOk el :=
  serializeRec_nsOk lookupName fuel d spec parentNs

/-- C1 witness: the heuristic property instantiated on a concrete document. -/
theorem c1_namespace_from_tag_heuristic_witness :
    NsOk (Elem.mk NS_CBC "PricingExchangeRate" [] (some "x") []) :=
  c1_namespace_from_tag_heuristic (fun _ => none) 51
    (Json.obj [("pricingexchangerate", Json.str "x")])
    [("pricingexchangerate",
      ElemInfo.mk "PricingExchangeRate" "cac:PricingExchangeRate" "0" "1" (some []))]
    "urn:oasis:names:specification:ubl:schema:xsd:Invoice-2"
    (Elem.mk NS_CBC "PricingExchangeRate" [] (some "x") [])
    (List.mem_singleton.mpr rfl)

/-- C1 counterexample: the Invoice child PricingExchangeRate is declared with
type cac:PricingExchangeRate, so the claim requires the
CommonAggregateComponents namespace; the serializer emits it in the
CommonBasicComponents namespace, because the tag contains the basic
indicator "Rate".  The serializer also never outputs the extension
namespace the claim requires for ext: types. -/
theorem c1_counterexample :
    (serializeRec (fun _ => none) 51
        (Json.obj [("pricingexchangerate", Json.str "x")])
        [("pricingexchangerate",
          ElemInfo.mk "PricingExchangeRate" "cac:PricingExchangeRate" "0" "1" (some []))]
        "urn:oasis:names:specification:ubl:schema:xsd:Invoice-2").map Elem.ns = [NS_CBC]
    ∧ specNamespaceOfType "cac:PricingExchangeRate"
        "urn:oasis:names:specification:ubl:schema:xsd:Invoice-2" = NS_CAC
    ∧ NS_CBC ≠ NS_CAC := by
  refine ⟨rfl, rfl, ?_⟩
  decide

/-- C9, corrected: the claim said booleans serialize as lowercase
"true"/"false"; the serializer stringifies scalars with Python str(), so a
schema-recognized scalar field holding a boolean is emitted with text
"True" or "False" (capitalized), in both the unbounded single-value branch
and the singular scalar branch. -/
theorem c9_bool_serializes_capitalized
    (recur : Json → Spec → String → List Elem)
    (kvs : List (String × Json)) (parentNs klow dk : String) (info : ElemInfo)
    (b : Bool)
    (h1 : strStartsWith klow "_" = false)
    (h2 : dataKeyForLower kvs klow = some dk)
    (h3 : dlookup kvs dk = some (Json.bool b)) :
    serializeEntry recur kvs parentNs (klow, info) =
      [Elem.mk (getElementNamespace (displayName klow info)) (displayName klow info)
        [] (some (if b then "True" else "False")) []] := by
  cases b <;>
    simp only [serializeEntry, h1, h2, h3, Bool.false_eq_true, if_false] <;>
    split <;>
    rfl

/-- C9 witness: a true value under an unbounded indicator field. -/
theorem c9_bool_serializes_capitalized_witness :
    serializeEntry (fun _ _ _ => []) [("paid", Json.bool true)]
      "urn:oasis:names:specification:ubl:schema:xsd:Invoice-2"
      ("paid", ElemInfo.mk "PaidIndicator" "cbc:PaidIndicator" "0" "unbounded" (some [])) =
      [Elem.mk NS_CBC "PaidIndicator" [] (some "True") []] :=
  c9_bool_serializes_capitalized (fun _ _ _ => []) [("paid", Json.bool true)]
    "urn:oasis:names:specification:ubl:schema:xsd:Invoice-2" "paid" "paid"
    (ElemInfo.mk "PaidIndicator" "cbc:PaidIndicator" "0" "unbounded" (some []))
    true rfl rfl rfl

/-- C9 counterexample: a boolean true input for a schema-recognized field
serializes with text "True", not the lowercase "true" the claim requires. -/
theorem c9_counterexample :
    (serializeRec (fun _ => none) 51 (Json.obj [("paid", Json.bool true)])
        [("paid", ElemInfo.mk "PaidIndicator" "cbc:PaidIndicator" "0" "unbounded" (some []))]
        "urn:oasis:names:specification:ubl:schema:xsd:Invoice-2").map Elem.text =
      [some "True"] ∧ ("True" : String) ≠ "true" := by
  refine ⟨rfl, ?_⟩
  decide

theorem extractField_unbounded_scalar_dropped (fuel : Nat) (info : ElemInfo)
    (v : Json) (path : String)
    (hmax : info.maxOccurs = "unbounded") (hv : isList v = false) :
    extractField (fuel + 1) info v path = (Json.null, [path]) := by
  cases v <;> simp_all [extractField, isList]

theorem extractItems_length (info : ElemInfo) (path : String) :
    ∀ (items : List Json) (fuel idx : Nat), items.length ≤ fuel →
      (extractItems (fuel + 1) info items path idx).1.length = items.length := by
  intro items
  induction items with
  | nil => intro fuel idx _; rfl
  | cons item rest ih =>
      intro fuel idx hlen
      match fuel, hlen with
      | m + 1, hlen =>
          have hrest : rest.length ≤ m := Nat.le_of_succ_le_succ hlen
          simp only [extractItems]
          have hr := ih m (idx + 1) hrest
          split <;> (simp only [List.length_cons]; omega)

theorem serializeEntry_unbounded_list
    (recur : Json → Spec → String → List Elem)
    (kvs : List (String × Json)) (parentNs klow dk : String) (info : ElemInfo)
    (items : List Json)
    (h1 : strStartsWith klow "_" = false)
    (h2 : dataKeyForLower kvs klow = some dk)
    (h3 : dlookup kvs dk = some (Json.arr items))
    (hmax : info.maxOccurs = "unbounded") :
    (serializeEntry recur kvs parentNs (klow, info)).length = items.length ∧
      ∀ el ∈ serializeEntry recur kvs parentNs (klow, info),
        el.tag = displayName klow info := by
  simp only [serializeEntry, h1, h2, h3, hmax, Bool.false_eq_true, if_false,
    beq_self_eq_true, if_true]
  constructor
  · simp
  · intro el hel
    obtain ⟨item, _, hitem⟩ := List.mem_map.mp hel
    split at hitem <;> (subst hitem; rfl)

/-- C3, corrected: the claim said a scalar supplied for a maxOccurs=
"unbounded" field is auto-wrapped so the output contains exactly one
element.  In the code the mapper (SchemaFieldExtractor._extract_field)
drops a non-list value for an array-typed field outright, recording its
path, so the mapped-then-serialized output contains zero such elements;
only the list half of the claim holds: a list of length N maps to a list
of length N and serializes to exactly N elements, all bearing the field's
schema name, in list order. -/
theorem c3_cardinality :
    (∀ (fuel : Nat) (info : ElemInfo) (v : Json) (path : String),
        info.maxOccurs = "unbounded" → isList v = false →
        extractField (fuel + 1) info v path = (Json.null, [path]))
    ∧ (∀ (info : ElemInfo) (path : String) (items : List Json) (fuel idx : Nat),
        items.length ≤ fuel →
        (extractItems (fuel + 1) info items path idx).1.length = items.length)
    ∧ (∀ (recur : Json → Spec → String → List Elem)
        (kvs : List (String × Json)) (parentNs klow dk : String)
        (info : ElemInfo) (items : List Json),
        strStartsWith klow "_" = false →
        dataKeyForLower kvs klow = some dk →
        dlookup kvs dk = some (Json.arr items) →
        info.maxOccurs = "unbounded" →
        (serializeEntry recur kvs parentNs (klow, info)).length = items.length ∧
          ∀ el ∈ serializeEntry recur kvs parentNs (klow, info),
            el.tag = displayName klow info) :=
  ⟨fun fuel info v path hmax hv =>
      extractField_unbounded_scalar_dropped fuel info v path hmax hv,
   fun info path items fuel idx hlen => extractItems_length info path items fuel idx hlen,
   fun recur kvs parentNs klow dk info items h1 h2 h3 hmax =>
      serializeEntry_unbounded_list recur kvs parentNs klow dk info items h1 h2 h3 hmax⟩

/-- C3 witness: the three parts of the cardinality statement instantiated on
concrete inputs (a dropped scalar, a two-element mapped list, a two-element
serialized list). -/
theorem c3_cardinality_witness :
    extractField 50 (ElemInfo.mk "Note" "cbc:Note" "0" "unbounded" (some []))
      (Json.str "hello") "note" = (Json.null, ["note"])
    ∧ (extractItems 50 (ElemInfo.mk "Note" "cbc:Note" "0" "unbounded" (some []))
        [Json.str "a", Json.str "b"] "note" 0).1.length = 2
    ∧ (serializeEntry (fun _ _ _ => [])
        [("note", Json.arr [Json.str "a", Json.str "b"])]
        "urn:oasis:names:specification:ubl:schema:xsd:Invoice-2"
        ("note", ElemInfo.mk "Note" "cbc:Note" "0" "unbounded" (some []))).length = 2 :=
  ⟨c3_cardinality.1 49 (ElemInfo.mk "Note" "cbc:Note" "0" "unbounded" (some []))
      (Json.str "hello") "note" rfl rfl,
   c3_cardinality.2.1 (ElemInfo.mk "Note" "cbc:Note" "0" "unbounded" (some []))
      "note" [Json.str "a", Json.str "b"] 49 0 (by decide),
   (c3_cardinality.2.2 (fun _ _ _ => [])
      [("note", Json.arr [Json.str "a", Json.str "b"])]
      "urn:oasis:names:specification:ubl:schema:xsd:Invoice-2" "note" "note"
      (ElemInfo.mk "Note" "cbc:Note" "0" "unbounded" (some []))
      [Json.str "a", Json.str "b"] rfl rfl rfl rfl).1⟩

/-- C3 counterexample: with maxOccurs="unbounded" note and a scalar input,
the mapped-then-serialized document contains zero Note elements (the claim
requires exactly one auto-wrapped element); the scalar was already dropped
by the mapper, which also records the path. -/
theorem c3_counterexample :
    validateAndExtract 50
        [("note", ElemInfo.mk "Note" "cbc:Note" "0" "unbounded" (some []))]
        [("note", Json.str "hello")] "" = ([], ["note"])
    ∧ (serializeRec (fun _ => none) 51
        (Json.obj (validateAndExtract 50
          [("note", ElemInfo.mk "Note" "cbc:Note" "0" "unbounded" (some []))]
          [("note", Json.str "hello")] "").1)
        [("note", ElemInfo.mk "Note" "cbc:Note" "0" "unbounded" (some []))]
        "urn:oasis:names:specification:ubl:schema:xsd:Invoice-2") = []
    ∧ (0 : Nat) ≠ 1 := by
  refine ⟨rfl, rfl, ?_⟩
  decide

theorem extractField_null (fuel : Nat) (info : ElemInfo) (path : String) :
    (extractField (fuel + 1) info Json.null path).1 = Json.null := by
  simp only [extractField]
  repeat' split
  all_goals rfl

theorem serializeEntry_null
    (recur : Json → Spec → String → List Elem)
    (kvs : List (String × Json)) (parentNs klow dk : String) (info : ElemInfo)
    (h1 : strStartsWith klow "_" = false)
    (h2 : dataKeyForLower kvs klow = some dk)
    (h3 : dlookup kvs dk = some Json.null) :
    serializeEntry recur kvs parentNs (klow, info) =
      (if info.minOccurs == "1" || info.minOccurs == "true" then
        [Elem.mk (getElementNamespace (displayName klow info))
          (displayName klow info) [] (some "") []]
      else []) := by
  simp only [serializeEntry, h1, h2, h3, Bool.false_eq_true, if_false]

/-- C4, corrected: the claim said nulls are preserved through mapping and
become empty elements when minOccurs>=1.  In the code the mapper removes a
null field (extract yields None, and only non-None values are kept), so the
serialized output omits the element entirely, whatever minOccurs says; only
a null handed directly to the serializer produces the claimed behaviour
(empty element iff minOccurs is "1" or "true", else omitted). -/
theorem c4_null_handling :
    (∀ (fuel : Nat) (info : ElemInfo) (path : String),
        (extractField (fuel + 1) info Json.null path).1 = Json.null)
    ∧ (∀ (recur : Json → Spec → String → List Elem)
        (kvs : List (String × Json)) (parentNs klow dk : String) (info : ElemInfo),
        strStartsWith klow "_" = false →
        dataKeyForLower kvs klow = some dk →
        dlookup kvs dk = some Json.null →
        serializeEntry recur kvs parentNs (klow, info) =
          (if info.minOccurs == "1" || info.minOccurs == "true" then
            [Elem.mk (getElementNamespace (displayName klow info))
              (displayName klow info) [] (some "") []]
          else [])) :=
  ⟨fun fuel info path => extractField_null fuel info path,
   fun recur kvs parentNs klow dk info h1 h2 h3 =>
      serializeEntry_null recur kvs parentNs klow dk info h1 h2 h3⟩

/-- C4 witness: a null dueDate is dropped by the mapper, and a null handed
directly to the serializer under minOccurs="1" yields one empty element. -/
theorem c4_null_handling_witness :
    (extractField 50 (ElemInfo.mk "DueDate" "cbc:DueDate" "1" "1" (some []))
      Json.null "duedate").1 = Json.null
    ∧ serializeEntry (fun _ _ _ => []) [("duedate", Json.null)]
        "urn:oasis:names:specification:ubl:schema:xsd:Invoice-2"
        ("duedate", ElemInfo.mk "DueDate" "cbc:DueDate" "1" "1" (some [])) =
        [Elem.mk NS_CBC "DueDate" [] (some "") []] :=
  ⟨c4_null_handling.1 49 (ElemInfo.mk "DueDate" "cbc:DueDate" "1" "1" (some []))
      "duedate",
   c4_null_handling.2 (fun _ _ _ => []) [("duedate", Json.null)]
      "urn:oasis:names:specification:ubl:schema:xsd:Invoice-2" "duedate" "duedate"
      (ElemInfo.mk "DueDate" "cbc:DueDate" "1" "1" (some [])) rfl rfl rfl⟩

/-- C4 counterexample: dueDate declared with minOccurs="1" and a null input;
the claim requires an empty DueDate element in the XML, but the mapper drops
the null (recording the path), and serializing the mapped document yields no
element at all. -/
theorem c4_counterexample :
    validateAndExtract 50
        [("duedate", ElemInfo.mk "DueDate" "cbc:DueDate" "1" "1" (some []))]
        [("duedate", Json.null)] "" = ([], ["duedate"])
    ∧ (serializeRec (fun _ => none) 51 (Json.obj [])
        [("duedate", ElemInfo.mk "DueDate" "cbc:DueDate" "1" "1" (some []))]
        "urn:oasis:names:specification:ubl:schema:xsd:Invoice-2") = [] := ⟨rfl, rfl⟩

/-- C5, corrected, completeness half of the amended statement: every input
key with no case-insensitive match at its schema level is recorded by path
in the dropped list (document_type included: validate_and_extract has no
exemption for it). -/
theorem c5_unmatched_key_recorded (schemaElems : Spec) :
    ∀ (kvs : List (String × Json)) (fuel : Nat) (path k : String) (v : Json),
      kvs.length ≤ fuel → (k, v) ∈ kvs →
      dlookup schemaElems (strLower k) = none →
      pathJoin path k ∈ (validateAndExtract fuel schemaElems kvs path).2 := by
  intro kvs
  induction kvs with
  | nil =>
      intro fuel path k v _ hmem _
      cases hmem
  | cons head rest ih =>
      intro fuel path k v hlen hmem hnone
      match fuel, hlen with
      | m + 1, hlen =>
          have hrest : rest.length ≤ m := Nat.le_of_succ_le_succ hlen
          rcases List.mem_cons.mp hmem with heq | hmemr
          · cases heq
            simp only [validateAndExtract, hnone]
            exact List.mem_cons_self _ _
          · simp only [validateAndExtract]
            split
            · exact List.mem_cons_of_mem _ (ih m path k v hrest hmemr hnone)
            · exact List.mem_append_right _ (ih m path k v hrest hmemr hnone)

/-- C5 witness: the reserved document_type key is itself recorded as dropped
when it has no schema match. -/
theorem c5_unmatched_key_recorded_witness :
    "document_type" ∈ (validateAndExtract 50
      [("id", ElemInfo.mk "ID" "cbc:ID" "0" "1" (some []))]
      [("document_type", Json.str "380"), ("id", Json.str "INV-1")] "").2 :=
  c5_unmatched_key_recorded
    [("id", ElemInfo.mk "ID" "cbc:ID" "0" "1" (some []))]
    [("document_type", Json.str "380"), ("id", Json.str "INV-1")] 50 ""
    "document_type" (Json.str "380") (by decide) (List.Mem.head _) rfl

/-- C5 counterexample: the claim says document_type never appears in the
dropped list; mapping a document with a document_type key against a schema
level that does not declare it records exactly that key as dropped. -/
theorem c5_counterexample :
    (validateAndExtract 50
      [("id", ElemInfo.mk "ID" "cbc:ID" "0" "1" (some []))]
      [("document_type", Json.str "380")] "").2 = ["document_type"] := rfl

theorem sRemove_sInsert (visited : List String) (x : String)
    (hx : visited.contains x = false) :
    sRemove (sInsert visited x) x = visited := by
  simp only [sInsert, hx, Bool.false_eq_true, if_false, sRemove]
  exact List.erase_cons_head x visited

/-- C6, corrected: the claim asserted the discipline for both extraction
passes; it holds only for the nested pass.
SchemaCacheBuilder._extract_nested_from_sequence always leaves the visited
set exactly as it found it: every type name pushed before descending into a
child type is popped when that descent returns, so exhaustion is path-local
and sibling branches are unaffected.  (The companion pass
_extract_elements_from_type violates the discipline; see the
counterexample.) -/
theorem c6_nested_pass_restores_visited :
    ∀ (fuel : Nat),
      (∀ (env : XsdEnv) (seqElems : List XsdElemDecl) (acc : Spec)
        (visited : List String) (depth maxDepth : Nat),
        (extractNestedLoop fuel env seqElems acc visited depth maxDepth).2 = visited)
      ∧ (∀ (env : XsdEnv) (seqElems : List XsdElemDecl)
        (visited : List String) (depth maxDepth : Nat),
        (extractNestedFromSequence fuel env seqElems visited depth maxDepth).2 =
          visited) := by
  intro fuel
  induction fuel with
  | zero => exact ⟨fun _ _ _ _ _ _ => rfl, fun _ _ _ _ _ => rfl⟩
  | succ n ih =>
      constructor
      · intro env seqElems acc visited depth maxDepth
        match seqElems with
        | [] => rfl
        | e :: rest =>
            simp only [extractNestedLoop]
            split
            · exact ih.1 env rest acc visited depth maxDepth
            · rw [ih.1]
              repeat' split
              all_goals first
                | rfl
                | (rw [ih.2, sRemove_sInsert] <;> simp_all)
                | (rw [sRemove_sInsert] <;> simp_all)
      · intro env seqElems visited depth maxDepth
        simp only [extractNestedFromSequence]
        split
        · rfl
        · exact (ih).1 env seqElems [] visited depth maxDepth

/-- C6 witness: the restoration property on the concrete two-sibling
environment: the nested pass returns with the visited set it was given,
and both siblings of the shared type get their nested child extracted. -/
theorem c6_nested_pass_restores_visited_witness :
    (extractNestedFromSequence 30 c6env
      [XsdElemDecl.mk (some "First") "" "SharedType" none none,
       XsdElemDecl.mk (some "Second") "" "SharedType" none none] [] 0 7).2 = [] :=
  (c6_nested_pass_restores_visited 30).2 c6env
    [XsdElemDecl.mk (some "First") "" "SharedType" none none,
     XsdElemDecl.mk (some "Second") "" "SharedType" none none] [] 0 7

/-- C6 counterexample: _extract_elements_from_type adds each child's
resolved type to the visited set and never removes it: extracting RootType
(two siblings of type SharedType) returns with SharedType still in the
visited set, and the second sibling's nested elements are empty while the
first sibling's are not - exhaustion is global across siblings, not
path-local as the claim states. -/
theorem c6_counterexample :
    (extractElementsFromType 30 c6env "RootType" [] 0 7).2 = ["SharedType"]
    ∧ ((extractElementsFromType 30 c6env "RootType" [] 0 7).1.map
        (fun kv => (kv.1, (kv.2.nested.getD []).length))) =
      [("first", 1), ("second", 0)]
    ∧ (["SharedType"] : List String) ≠ [] := by
  refine ⟨rfl, rfl, ?_⟩
  decide

theorem mapE_error {f : α → Except String (List β)} :
    ∀ {l : List α} {x : α} {msg : String}, x ∈ l → f x = Except.error msg →
      ∃ msg2, mapE f l = Except.error msg2 := by
  intro l
  induction l with
  | nil =>
      intro x msg hx _
      cases hx
  | cons y rest ih =>
      intro x msg hx hf
      rcases List.mem_cons.mp hx with rfl | hxr
      · refine ⟨msg, ?_⟩
        simp only [mapE, hf]
      · simp only [mapE]
        match hy : f y with
        | Except.error e => exact ⟨e, rfl⟩
        | Except.ok v =>
            obtain ⟨m2, hm2⟩ := ih hxr hf
            rw [hm2]
            exact ⟨m2, rfl⟩

theorem joinMapE_error {f : α → Except String (List β)} {l : List α} {x : α}
    {msg : String} (hx : x ∈ l) (hf : f x = Except.error msg) :
    ∃ msg2, joinMapE f l = Except.error msg2 := by
  obtain ⟨m2, hm2⟩ := mapE_error hx hf
  exact ⟨m2, by simp only [joinMapE, hm2]⟩

/-- C8, corrected: the claim said an exception while serializing one field
is caught and only that field is skipped.  _serialize_recursive contains no
per-field try/except and serialize only logs and re-raises, so a failing
entry aborts the whole recursion: if any schema entry's dispatch raises,
the entire call raises and no tree is produced for the remaining fields. -/
theorem c8_field_error_aborts_serialization
    (lookupName : String → Option String) (fuel : Nat)
    (kvs : List (String × Json)) (spec : Spec) (parentNs : String)
    (entry : String × ElemInfo) (msg : String)
    (hmem : entry ∈ spec)
    (hfail : serializeEntryE (fun d s n => serializeRecE lookupName fuel d s n)
      kvs parentNs entry = Except.error msg) :
    ∃ msg2, serializeRecE lookupName (fuel + 1) (Json.obj kvs) spec parentNs =
      Except.error msg2 := by
  have hspec : spec.isEmpty = false := by
    cases spec
    · cases hmem
    · rfl
  simp only [serializeRecE, hspec, Bool.false_eq_true, if_false]
  exact joinMapE_error hmem hfail

/-- C8 witness: a schema entry whose cached element name is not a valid XML
tag ("Bad Name" contains a space, so lxml raises) aborts the whole
document's serialization. -/
theorem c8_field_error_aborts_serialization_witness :
    ∃ msg2, serializeRecE (fun _ => none) 51
      (Json.obj [("bad", Json.str "x"), ("id", Json.str "1")])
      [("bad", ElemInfo.mk "Bad Name" "" "0" "1" (some [])),
       ("id", ElemInfo.mk "ID" "cbc:ID" "0" "1" (some []))]
      "urn:oasis:names:specification:ubl:schema:xsd:Invoice-2" =
      Except.error msg2 :=
  c8_field_error_aborts_serialization (fun _ => none) 50
    [("bad", Json.str "x"), ("id", Json.str "1")]
    [("bad", ElemInfo.mk "Bad Name" "" "0" "1" (some [])),
     ("id", ElemInfo.mk "ID" "cbc:ID" "0" "1" (some []))]
    "urn:oasis:names:specification:ubl:schema:xsd:Invoice-2"
    ("bad", ElemInfo.mk "Bad Name" "" "0" "1" (some []))
    ("Invalid tag name " ++ sq ++ "Bad Name" ++ sq)
    (List.Mem.head _) rfl

/-- C8 counterexample: a document whose first field produces an invalid XML
tag; the claim requires the rest of the document (the id field) to still be
serialized, but serialize raises and returns no tree at all. -/
theorem c8_counterexample :
    serializeE (SchemaCache.mk none none [])
        [("bad key", Json.str "x"), ("id", Json.str "1")] =
      Except.error ("Invalid tag name " ++ sq ++ "Bad key" ++ sq)
    ∧ ∀ el, serializeE (SchemaCache.mk none none [])
        [("bad key", Json.str "x"), ("id", Json.str "1")] ≠ Except.ok el := by
  refine ⟨rfl, ?_⟩
  intro el h
  rw [show serializeE (SchemaCache.mk none none [])
      [("bad key", Json.str "x"), ("id", Json.str "1")] =
      Except.error ("Invalid tag name " ++ sq ++ "Bad key" ++ sq) from rfl] at h
  cases h

/-- C10, confirmed: convert_json_dict_to_xml_dict never propagates a
failure: for every input value and every behaviour of its collaborators
(schema load, mapper, serializer, validator - a raised exception being an
error oracle), the returned envelope always carries the documents, summary
and error_response fields, and either the conversion succeeded (null
error_response, exactly one document) or it failed (non-null error_response,
empty documents).  A validator failure is only metadata and still counts as
success. -/
theorem c10_error_envelope :
    ∀ (oracle : ConvOracle) (input : Json),
      ((convertJsonDictToXmlDict oracle input).error_response = none ∧
        (convertJsonDictToXmlDict oracle input).documents.length = 1) ∨
      ((convertJsonDictToXmlDict oracle input).error_response ≠ none ∧
        (convertJsonDictToXmlDict oracle input).documents = []) := by
  intro oracle input
  cases input <;> simp only [convertJsonDictToXmlDict]
  case obj kvs =>
    repeat' split
    all_goals simp
  all_goals simp

theorem dlookup_cons_self {k : String} {v : α} {d : List (String × α)} :
    dlookup ((k, v) :: d) k = some v := by
  simp [dlookup, List.find?_cons_of_pos]

theorem dlookup_cons_ne {k k' : String} {v : α} {d : List (String × α)}
    (h : k' ≠ k) : dlookup ((k, v) :: d) k' = dlookup d k' := by
  simp only [dlookup]
  rw [List.find?_cons_of_neg]
  simp only [beq_iff_eq]
  exact fun he => h he.symm

theorem dlookup_map_update_self (k : String) (v : α) :
    ∀ (d : List (String × α)), d.any (fun kv => kv.1 == k) = true →
      dlookup (d.map (fun kv => if kv.1 == k then (k, v) else kv)) k = some v := by
  intro d
  induction d with
  | nil => intro h; simp at h
  | cons kv rest ih =>
      intro hany
      by_cases hkv : (kv.1 == k) = true
      · simp only [List.map_cons, hkv, if_true]
        exact dlookup_cons_self
      · have hrest : rest.any (fun kv => kv.1 == k) = true := by
          simp only [List.any_cons, Bool.or_eq_true] at hany
          rcases hany with h | h
          · exact absurd h hkv
          · exact h
        simp only [List.map_cons, hkv, if_false, Bool.false_eq_true]
        rw [dlookup_cons_ne (fun he => hkv (by simp [he]))]
        exact ih hrest

theorem dlookup_map_update_ne (k k' : String) (v : α) (h : k' ≠ k) :
    ∀ (d : List (String × α)),
      dlookup (d.map (fun kv => if kv.1 == k then (k, v) else kv)) k' =
        dlookup d k' := by
  intro d
  induction d with
  | nil => rfl
  | cons kv rest ih =>
      rcases kv with ⟨k1, v1⟩
      by_cases hkv : ((k1, v1).1 == k) = true
      · have hk1 : k1 = k := by simpa using hkv
        simp only [List.map_cons, hkv, if_true]
        rw [dlookup_cons_ne h, dlookup_cons_ne (hk1 ▸ h)]
        exact ih
      · simp only [List.map_cons, hkv, if_false, Bool.false_eq_true]
        by_cases he : k' = k1
        · subst he
          simp [dlookup, List.find?_cons_of_pos]
        · rw [dlookup_cons_ne he, dlookup_cons_ne he]
          exact ih

theorem dlookup_append_single_self (k : String) (v : α) :
    ∀ (d : List (String × α)), d.any (fun kv => kv.1 == k) = false →
      dlookup (d ++ [(k, v)]) k = some v := by
  intro d
  induction d with
  | nil => intro _; exact dlookup_cons_self
  | cons kv rest ih =>
      intro hany
      simp only [List.any_cons, Bool.or_eq_false_iff] at hany
      rw [List.cons_append, dlookup_cons_ne (fun he => by simp [he] at hany)]
      exact ih (by simp [hany.2])

theorem dlookup_append_single_ne (k k' : String) (v : α) (h : k' ≠ k) :
    ∀ (d : List (String × α)), dlookup (d ++ [(k, v)]) k' = dlookup d k' := by
  intro d
  induction d with
  | nil =>
      simp only [List.nil_append]
      rw [dlookup_cons_ne h]
  | cons kv rest ih =>
      rcases kv with ⟨k1, v1⟩
      by_cases he : k' = k1
      · subst he
        simp [dlookup, List.find?_cons_of_pos]
      · rw [List.cons_append, dlookup_cons_ne he, dlookup_cons_ne he]
        exact ih

theorem dlookup_dset_self (d : List (String × α)) (k : String) (v : α) :
    dlookup (dset d k v) k = some v := by
  unfold dset
  split
  · exact dlookup_map_update_self k v d (by assumption)
  · rename_i hany
    have hfalse : d.any (fun kv => kv.1 == k) = false := by
      cases hb : d.any (fun kv => kv.1 == k)
      · rfl
      · exact absurd hb hany
    exact dlookup_append_single_self k v d hfalse

theorem dlookup_dset_ne (d : List (String × α)) (k k' : String) (v : α)
    (h : k' ≠ k) : dlookup (dset d k v) k' = dlookup d k' := by
  unfold dset
  split
  · exact dlookup_map_update_ne k k' v h d
  · exact dlookup_append_single_ne k k' v h d

theorem dlookup_of_mem {d : List (String × α)} {k : String} {v : α}
    (hnd : (dkeys d).Nodup) (hmem : (k, v) ∈ d) : dlookup d k = some v := by
  induction d with
  | nil => cases hmem
  | cons kv rest ih =>
      rcases kv with ⟨k1, v1⟩
      rcases List.mem_cons.mp hmem with heq | hmemr
      · cases heq
        exact dlookup_cons_self
      · have hk : k ≠ k1 := by
          intro he
          subst he
          exact (List.nodup_cons.mp hnd).1
            (List.mem_map.mpr ⟨(k, v), hmemr, rfl⟩)
        rw [dlookup_cons_ne hk]
        exact ih (List.nodup_cons.mp hnd).2 hmemr

theorem mem_of_dlookup {d : List (String × α)} {k : String} {v : α}
    (h : dlookup d k = some v) : (k, v) ∈ d := by
  simp only [dlookup, Option.map_eq_some'] at h
  obtain ⟨kv, hfind, hv⟩ := h
  have hmem := List.mem_of_find?_eq_some hfind
  have hk : kv.1 = k := by simpa using List.find?_some hfind
  rcases kv with ⟨k1, v1⟩
  cases hk
  cases hv
  exact hmem

theorem dkeys_dset_of_mem (d : List (String × α)) (k : String) (v : α)
    (h : d.any (fun kv => kv.1 == k) = true) : dkeys (dset d k v) = dkeys d := by
  unfold dset
  rw [if_pos h]
  simp only [dkeys, List.map_map]
  apply List.map_congr_left
  intro kv _
  by_cases hkv : (kv.1 == k) = true
  · simp only [Function.comp, hkv, if_true]
    exact (by simpa using hkv : kv.1 = k).symm
  · simp [Function.comp, hkv]

theorem mem_dset {d : List (String × α)} {k : String} {v : α} {pr : String × α}
    (h : pr ∈ dset d k v) : pr ∈ d ∨ pr = (k, v) := by
  unfold dset at h
  split at h
  · obtain ⟨kv, hkv, heq⟩ := List.mem_map.mp h
    split at heq
    · exact Or.inr heq.symm
    · exact Or.inl (heq ▸ hkv)
  · rcases List.mem_append.mp h with h1 | h2
    · exact Or.inl h1
    · exact Or.inr (List.mem_singleton.mp h2)

theorem mem_dataKeysLowerList {kvs : List (String × Json)} :
    ∀ pr ∈ dataKeysLowerList kvs, pr.1 = strLower pr.2 ∧ pr.2 ∈ dkeys kvs := by
  have general :
      ∀ (l : List (String × Json)) (acc : List (String × String))
        (keyPool : List String),
        (∀ kv ∈ l, kv.1 ∈ keyPool) →
        (∀ pr ∈ acc, pr.1 = strLower pr.2 ∧ pr.2 ∈ keyPool) →
        ∀ pr ∈ l.foldl (fun acc kv => dset acc (strLower kv.1) kv.1) acc,
          pr.1 = strLower pr.2 ∧ pr.2 ∈ keyPool := by
    intro l
    induction l with
    | nil => intro acc keyPool _ hacc pr hpr; exact hacc pr hpr
    | cons kv rest ih =>
        intro acc keyPool hpool hacc pr hpr
        refine ih _ keyPool (fun kv' h' => hpool kv' (List.mem_cons_of_mem _ h'))
          ?_ pr hpr
        intro pr' hpr'
        rcases mem_dset hpr' with hold | hnew
        · exact hacc pr' hold
        · subst hnew
          exact ⟨rfl, hpool kv (List.Mem.head _)⟩
  intro pr hpr
  exact general kvs [] (dkeys kvs) (fun kv h => List.mem_map.mpr ⟨kv, h, rfl⟩)
    (by intro pr' h; cases h) pr hpr

theorem dset_fresh_append {d : List (String × α)} {k : String} {v : α}
    (h : d.any (fun kv => kv.1 == k) = false) : dset d k v = d ++ [(k, v)] := by
  unfold dset
  rw [if_neg]
  simp [h]

theorem dataKeysLowerList_eq_map :
    ∀ (kvs : List (String × Json)), ((dkeys kvs).map strLower).Nodup →
      dataKeysLowerList kvs = kvs.map (fun kv => (strLower kv.1, kv.1)) := by
  have general :
      ∀ (l : List (String × Json)) (acc : List (String × String)),
        (∀ kv ∈ l, acc.any (fun pr => pr.1 == strLower kv.1) = false) →
        ((dkeys l).map strLower).Nodup →
        l.foldl (fun acc kv => dset acc (strLower kv.1) kv.1) acc =
          acc ++ l.map (fun kv => (strLower kv.1, kv.1)) := by
    intro l
    induction l with
    | nil => intro acc _ _; simp
    | cons kv rest ih =>
        intro acc hfresh hnd
        have hndc := hnd
        simp only [dkeys, List.map_cons, List.nodup_cons] at hndc
        have hstep : dset acc (strLower kv.1) kv.1 = acc ++ [(strLower kv.1, kv.1)] :=
          dset_fresh_append (hfresh kv (List.Mem.head _))
        simp only [List.foldl_cons, hstep]
        rw [ih (acc ++ [(strLower kv.1, kv.1)]) ?_ ?_]
        · simp
        · intro kv' hkv'
          rw [List.any_append]
          simp only [Bool.or_eq_false_iff]
          constructor
          · exact hfresh kv' (List.mem_cons_of_mem _ hkv')
          · simp only [List.any_cons, List.any_nil, Bool.or_false,
              beq_eq_false_iff_ne]
            have hmm : strLower kv'.1 ∈ (dkeys rest).map strLower :=
              List.mem_map.mpr ⟨kv'.1, List.mem_map.mpr ⟨kv', hkv', rfl⟩, rfl⟩
            intro heq
            exact hndc.1 (heq ▸ hmm)
        · exact hndc.2
  intro kvs hnd
  exact general kvs [] (by intro kv _; rfl) hnd

theorem dataKeyForLower_self {kvs : List (String × Json)}
    (hnd : ((dkeys kvs).map strLower).Nodup) :
    ∀ (k : String), k ∈ dkeys kvs →
      dataKeyForLower kvs (strLower k) = some k := by
  intro k hk
  unfold dataKeyForLower
  rw [dataKeysLowerList_eq_map kvs hnd]
  induction kvs with
  | nil => cases hk
  | cons kv rest ih =>
      rcases kv with ⟨k1, v1⟩
      rcases List.mem_cons.mp hk with heq | hmemr
      · cases heq
        exact dlookup_cons_self
      · have hndc := hnd
        simp only [dkeys, List.map_cons, List.nodup_cons] at hndc
        have hne : strLower k ≠ strLower k1 := by
          intro heq
          apply hndc.1
          rw [← heq]
          exact List.mem_map.mpr ⟨k, hmemr, rfl⟩
        rw [List.map_cons, dlookup_cons_ne hne]
        exact ih hndc.2 hmemr

theorem dataKeyForLower_none {kvs : List (String × Json)} {kl : String}
    (h : ∀ kv ∈ kvs, strLower kv.1 ≠ kl) :
    dataKeyForLower kvs kl = none := by
  unfold dataKeyForLower dlookup
  rw [List.find?_eq_none.mpr]
  · rfl
  · intro pr hpr
    obtain ⟨hlow, hkey⟩ := mem_dataKeysLowerList pr hpr
    obtain ⟨kv, hkv, hfst⟩ := List.mem_map.mp hkey
    simp only [beq_iff_eq]
    intro heq
    exact h kv hkv (by rw [← hfst] at hlow; rw [← hlow, heq])

theorem strLower_eq_of_dataKeysLower {q : List (String × Json)} {fl ok : String}
    (h : dlookup (dataKeysLowerList q) fl = some ok) :
    strLower ok = fl ∧ ok ∈ dkeys q := by
  have hpair := @mem_dataKeysLowerList q (fl, ok) (mem_of_dlookup h)
  exact ⟨hpair.1.symm, hpair.2⟩

theorem mergeArrayField_frame (page m : List (String × Json)) (fl k : String)
    (hne : strLower k ≠ fl) :
    dlookup (mergeArrayField page m fl) k = dlookup m k := by
  unfold mergeArrayField
  cases h1 : dlookup (dataKeysLowerList page) fl with
  | none => rfl
  | some ok =>
      by_cases hok : (ok == "") = true
      · simp [hok]
      · simp only [hok, Bool.false_eq_true, if_false]
        cases h2 : dlookup page ok with
        | none => rfl
        | some pv =>
            by_cases htr : jTruthy pv = true
            · simp only [htr, Bool.not_true, Bool.false_eq_true, if_false]
              cases h3 : dlookup (dataKeysLowerList m) fl with
              | some mk =>
                  have hmk := (strLower_eq_of_dataKeysLower h3).1
                  have hkmk : k ≠ mk := fun he => hne (he ▸ hmk)
                  cases h4 : dlookup m mk with
                  | none => simp only [h4]
                  | some cur =>
                      cases cur with
                      | arr xs =>
                          simp only [h4]
                          cases pv <;> rw [dlookup_dset_ne _ _ _ _ hkmk]
                      | null =>
                          simp only [h4, dlookup_dset_self]
                          cases pv <;> rw [dlookup_dset_ne _ _ _ _ hkmk,
                            dlookup_dset_ne _ _ _ _ hkmk]
                      | bool b =>
                          simp only [h4, dlookup_dset_self]
                          cases pv <;> rw [dlookup_dset_ne _ _ _ _ hkmk,
                            dlookup_dset_ne _ _ _ _ hkmk]
                      | int n =>
                          simp only [h4, dlookup_dset_self]
                          cases pv <;> rw [dlookup_dset_ne _ _ _ _ hkmk,
                            dlookup_dset_ne _ _ _ _ hkmk]
                      | str st =>
                          simp only [h4, dlookup_dset_self]
                          cases pv <;> rw [dlookup_dset_ne _ _ _ _ hkmk,
                            dlookup_dset_ne _ _ _ _ hkmk]
                      | obj fs =>
                          simp only [h4, dlookup_dset_self]
                          cases pv <;> rw [dlookup_dset_ne _ _ _ _ hkmk,
                            dlookup_dset_ne _ _ _ _ hkmk]
              | none =>
                  have hok2 := (strLower_eq_of_dataKeysLower h1).1
                  have hkok : k ≠ ok := fun he => hne (he ▸ hok2)
                  cases pv <;> exact dlookup_dset_ne _ _ _ _ hkok
            · simp [htr]

theorem any_key_of_mem {d : List (String × α)} {k : String} (h : k ∈ dkeys d) :
    d.any (fun kv => kv.1 == k) = true := by
  obtain ⟨kv, hkv, rfl⟩ := List.mem_map.mp h
  exact List.any_eq_true.mpr ⟨kv, hkv, by simp⟩

theorem contains_true_iff {l : List String} {a : String} :
    l.contains a = true ↔ a ∈ l := by
  induction l with
  | nil => simp
  | cons b rest ih => simp [List.contains_cons, ih]

theorem mergeArrayField_keys (p m : List (String × Json)) (fl : String)
    (hnd : ((dkeys p).map strLower).Nodup) (hkeys : dkeys m = dkeys p) :
    dkeys (mergeArrayField p m fl) = dkeys p := by
  unfold mergeArrayField
  cases h1 : dlookup (dataKeysLowerList p) fl with
  | none => exact hkeys
  | some ok =>
      by_cases hok : (ok == "") = true
      · simp [hok, hkeys]
      · simp only [hok, Bool.false_eq_true, if_false]
        cases h2 : dlookup p ok with
        | none => exact hkeys
        | some pv =>
            by_cases htr : jTruthy pv = true
            · simp only [htr, Bool.not_true, Bool.false_eq_true, if_false]
              cases h3 : dlookup (dataKeysLowerList m) fl with
              | some mk =>
                  obtain ⟨hmk, hmkmem⟩ := strLower_eq_of_dataKeysLower h3
                  have hany : m.any (fun kv => kv.1 == mk) = true :=
                    any_key_of_mem hmkmem
                  cases h4 : dlookup m mk with
                  | none => simp only [h4]; exact hkeys
                  | some cur =>
                      have hkeys2 :
                          ∀ (m2 : List (String × Json)), dkeys m2 = dkeys p →
                            mk ∈ dkeys m2 →
                            ∀ w, dkeys (dset m2 mk w) = dkeys p := by
                        intro m2 h2k h2m w
                        rw [dkeys_dset_of_mem _ _ _ (any_key_of_mem h2m)]
                        exact h2k
                      cases cur with
                      | arr xs =>
                          simp only [h4]
                          cases pv <;>
                            exact hkeys2 m hkeys (hkeys ▸ (hkeys ▸ hmkmem)) _
                      | null =>
                          simp only [h4, dlookup_dset_self]
                          cases pv <;>
                            exact hkeys2 _ (hkeys2 m hkeys (hkeys ▸ (hkeys ▸ hmkmem)) _)
                              ((hkeys2 m hkeys (hkeys ▸ (hkeys ▸ hmkmem)) _) ▸
                                (hkeys ▸ (hkeys ▸ hmkmem))) _
                      | bool b =>
                          simp only [h4, dlookup_dset_self]
                          cases pv <;>
                            exact hkeys2 _ (hkeys2 m hkeys (hkeys ▸ (hkeys ▸ hmkmem)) _)
                              ((hkeys2 m hkeys (hkeys ▸ (hkeys ▸ hmkmem)) _) ▸
                                (hkeys ▸ (hkeys ▸ hmkmem))) _
                      | int n =>
                          simp only [h4, dlookup_dset_self]
                          cases pv <;>
                            exact hkeys2 _ (hkeys2 m hkeys (hkeys ▸ (hkeys ▸ hmkmem)) _)
                              ((hkeys2 m hkeys (hkeys ▸ (hkeys ▸ hmkmem)) _) ▸
                                (hkeys ▸ (hkeys ▸ hmkmem))) _
                      | str st =>
                          simp only [h4, dlookup_dset_self]
                          cases pv <;>
                            exact hkeys2 _ (hkeys2 m hkeys (hkeys ▸ (hkeys ▸ hmkmem)) _)
                              ((hkeys2 m hkeys (hkeys ▸ (hkeys ▸ hmkmem)) _) ▸
                                (hkeys ▸ (hkeys ▸ hmkmem))) _
                      | obj fs =>
                          simp only [h4, dlookup_dset_self]
                          cases pv <;>
                            exact hkeys2 _ (hkeys2 m hkeys (hkeys ▸ (hkeys ▸ hmkmem)) _)
                              ((hkeys2 m hkeys (hkeys ▸ (hkeys ▸ hmkmem)) _) ▸
                                (hkeys ▸ (hkeys ▸ hmkmem))) _
              | none =>
                  obtain ⟨hok2, hokmem⟩ := strLower_eq_of_dataKeysLower h1
                  have hndm : ((dkeys m).map strLower).Nodup := by rw [hkeys]; exact hnd
                  have h3b := dataKeyForLower_self hndm ok (by rw [hkeys]; exact hokmem)
                  unfold dataKeyForLower at h3b
                  rw [hok2] at h3b
                  rw [h3b] at h3
                  cases h3
            · simp [htr, hkeys]

theorem mergeArrayField_hit (p m : List (String × Json)) (k : String)
    (xs ys : List Json)
    (hnd : ((dkeys p).map strLower).Nodup)
    (hkeys : dkeys m = dkeys p)
    (hkmem : k ∈ dkeys p)
    (hkne : k ≠ "")
    (hm : dlookup m k = some (Json.arr xs))
    (hp : dlookup p k = some (Json.arr ys))
    (hys : ys ≠ []) :
    dlookup (mergeArrayField p m (strLower k)) k = some (Json.arr (xs ++ ys)) := by
  have h1 := dataKeyForLower_self hnd k hkmem
  unfold dataKeyForLower at h1
  have hndm : ((dkeys m).map strLower).Nodup := by rw [hkeys]; exact hnd
  have h3 := dataKeyForLower_self hndm k (by rw [hkeys]; exact hkmem)
  unfold dataKeyForLower at h3
  have htr : jTruthy (Json.arr ys) = true := by
    cases ys with
    | nil => exact absurd rfl hys
    | cons y t => rfl
  have hne : (k == "") = false := beq_eq_false_iff_ne.mpr hkne
  unfold mergeArrayField
  simp only [h1, hne, Bool.false_eq_true, if_false, hp, htr, Bool.not_true, h3, hm]
  exact dlookup_dset_self _ _ _

theorem fold_mergeArrayField_frame (p : List (String × Json)) (k : String)
    (hnd : ((dkeys p).map strLower).Nodup) :
    ∀ (l : List String) (m : List (String × Json)),
      (∀ fl ∈ l, fl ≠ strLower k) → dkeys m = dkeys p →
      dlookup (l.foldl (mergeArrayField p) m) k = dlookup m k ∧
        dkeys (l.foldl (mergeArrayField p) m) = dkeys p := by
  intro l
  induction l with
  | nil => intro m _ hkeys; exact ⟨rfl, hkeys⟩
  | cons fl rest ih =>
      intro m hne hkeys
      simp only [List.foldl_cons]
      have hstep_keys := mergeArrayField_keys p m fl hnd hkeys
      have hstep_lookup := mergeArrayField_frame p m fl k
        (fun he => hne fl (List.Mem.head _) he.symm)
      obtain ⟨ha, hb⟩ := ih (mergeArrayField p m fl)
        (fun f hf => hne f (List.mem_cons_of_mem _ hf)) hstep_keys
      exact ⟨ha.trans hstep_lookup, hb⟩

theorem scalar_fold_frame (af : List String) (k : String) :
    ∀ (q m : List (String × Json)),
      (∀ kv ∈ q, kv.1 = k →
        (!(af.contains (strLower kv.1)) && !(isNull kv.2)) = false) →
      dlookup (q.foldl (fun m kv =>
        if !(af.contains (strLower kv.1)) && !(isNull kv.2) then dset m kv.1 kv.2
        else m) m) k = dlookup m k := by
  intro q
  induction q with
  | nil => intro m _; rfl
  | cons kv rest ih =>
      intro m hcond
      simp only [List.foldl_cons]
      rw [ih _ (fun kv' h' hk => hcond kv' (List.mem_cons_of_mem _ h') hk)]
      by_cases hc : (!(af.contains (strLower kv.1)) && !(isNull kv.2)) = true
      · rw [if_pos hc]
        by_cases hk : kv.1 = k
        · rw [hcond kv (List.Mem.head _) hk] at hc
          cases hc
        · exact dlookup_dset_ne _ _ _ _ (fun he => hk he.symm)
      · rw [if_neg hc]

theorem scalar_fold_set (af : List String) (k : String) (v : Json) :
    ∀ (q : List (String × Json)) (m : List (String × Json)),
      (dkeys q).Nodup → (k, v) ∈ q →
      (!(af.contains (strLower k)) && !(isNull v)) = true →
      dlookup (q.foldl (fun m kv =>
        if !(af.contains (strLower kv.1)) && !(isNull kv.2) then dset m kv.1 kv.2
        else m) m) k = some v := by
  intro q
  induction q with
  | nil => intro m _ hmem _; cases hmem
  | cons kv rest ih =>
      intro m hnd hmem hc
      rcases List.mem_cons.mp hmem with heq | hmemr
      · cases heq
        simp only [List.foldl_cons, hc, if_true]
        rw [scalar_fold_frame af k rest _ ?_]
        · exact dlookup_dset_self _ _ _
        · intro kv' h' hk
          refine absurd ?_ (List.nodup_cons.mp hnd).1
          have : kv'.1 ∈ dkeys rest := List.mem_map.mpr ⟨kv', h', rfl⟩
          rw [hk] at this
          exact this
      · have hk1 : kv.1 ≠ k := by
          intro he
          apply (List.nodup_cons.mp hnd).1
          show kv.1 ∈ List.map (fun kv => kv.1) rest
          rw [he]
          exact List.mem_map.mpr ⟨(k, v), hmemr, rfl⟩
        simp only [List.foldl_cons]
        exact ih _ (List.nodup_cons.mp hnd).2 hmemr hc

/-- C7, confirmed: merging a page with itself through _merge_pages doubles
every schema-declared unbounded field that is present as a non-empty list
(the second copy's items are appended to the first's), and leaves every
field whose lowercase name is not an array field at exactly its value in
the page.  The page's keys are assumed pairwise distinct after lowercasing
and non-empty, and the cache's element keys pairwise distinct - both hold
for dicts produced by the converter, which lowercases keys, and for caches
loaded from JSON objects. -/
theorem c7_merge_page_with_itself (cache : SchemaCache) (p : List (String × Json))
    (hp : ((dkeys p).map strLower).Nodup)
    (hc : (dkeys cache.elements).Nodup) :
    (∀ (k : String) (ys : List Json), k ≠ "" →
        (arrayFieldsOf cache).contains (strLower k) = true →
        dlookup p k = some (Json.arr ys) → ys ≠ [] →
        dlookup (mergePages [p, p] (some cache)) k = some (Json.arr (ys ++ ys)))
    ∧ (∀ (k : String) (v : Json),
        (arrayFieldsOf cache).contains (strLower k) = false →
        dlookup p k = some v →
        dlookup (mergePages [p, p] (some cache)) k = some v) := by
  have hmerge : mergePages [p, p] (some cache) =
      p.foldl (fun m kv =>
        if !((arrayFieldsOf cache).contains (strLower kv.1)) && !(isNull kv.2)
        then dset m kv.1 kv.2 else m)
        ((arrayFieldsOf cache).foldl (mergeArrayField p) p) := rfl
  have hndaf : (arrayFieldsOf cache).Nodup := by
    have hc2 : (cache.elements.map (fun kv => kv.1)).Nodup := hc
    unfold arrayFieldsOf
    exact List.Nodup.sublist
      (List.Sublist.map (fun kv => kv.1) (List.filter_sublist cache.elements)) hc2
  constructor
  · intro k ys hkne hcont hlook hys
    have hkmem : k ∈ dkeys p := List.mem_map.mpr ⟨_, mem_of_dlookup hlook, rfl⟩
    have hfl : strLower k ∈ arrayFieldsOf cache := contains_true_iff.mp hcont
    obtain ⟨l1, l2, hsplit⟩ := List.append_of_mem hfl
    have hnd2 : (l1 ++ strLower k :: l2).Nodup := hsplit ▸ hndaf
    have hnotl1 : ∀ fl ∈ l1, fl ≠ strLower k := by
      intro fl hfl1 he
      subst he
      exact (List.disjoint_of_nodup_append hnd2) hfl1 (List.Mem.head _)
    have hnotl2 : ∀ fl ∈ l2, fl ≠ strLower k := by
      intro fl hfl2 he
      subst he
      exact ((List.nodup_append.mp hnd2).2.1.not_mem) hfl2
    rw [hmerge, hsplit]
    obtain ⟨hm1look, hm1keys⟩ :=
      fold_mergeArrayField_frame p k hp l1 p hnotl1 rfl
    rw [List.foldl_append, List.foldl_cons]
    have hhit := mergeArrayField_hit p (l1.foldl (mergeArrayField p) p) k ys ys
      hp hm1keys hkmem hkne (hm1look.trans hlook) hlook hys
    have hhitkeys := mergeArrayField_keys p (l1.foldl (mergeArrayField p) p)
      (strLower k) hp hm1keys
    obtain ⟨hm2look, _⟩ := fold_mergeArrayField_frame p k hp l2 _ hnotl2 hhitkeys
    rw [scalar_fold_frame _ _ _ _ ?_]
    · exact hm2look.trans hhit
    · intro kv hkv hk
      rw [hk, ← hsplit, hcont]
      rfl
  · intro k v hcont hlook
    have hnotaf : ∀ fl ∈ arrayFieldsOf cache, fl ≠ strLower k := by
      intro fl hfl he
      subst he
      rw [contains_true_iff.mpr hfl] at hcont
      cases hcont
    obtain ⟨h1look, _⟩ :=
      fold_mergeArrayField_frame p k hp (arrayFieldsOf cache) p hnotaf rfl
    rw [hmerge]
    cases hv : isNull v with
    | true =>
        rw [scalar_fold_frame _ _ _ _ ?_]
        · exact h1look.trans hlook
        · intro kv hkv hk
          have hveq : kv.2 = v := by
            have h1 := dlookup_of_mem (hp.of_map) hkv
            rw [hk, hlook] at h1
            exact (Option.some.inj h1).symm
          rw [hveq, hv]
          simp
    | false =>
        rw [scalar_fold_set _ _ v p _ hp.of_map (mem_of_dlookup hlook)
          (by rw [hcont, hv]; rfl)]

/-- C7 witness: a two-field page (scalar id, one-line unbounded invoiceline)
merged with itself doubles the line array and keeps the id. -/
theorem c7_merge_page_with_itself_witness :
    dlookup (mergePages
      [[("id", Json.str "X"), ("invoiceline", Json.arr [Json.str "L1"])],
       [("id", Json.str "X"), ("invoiceline", Json.arr [Json.str "L1"])]]
      (some (SchemaCache.mk none none
        [("invoiceline",
          ElemInfo.mk "InvoiceLine" "cac:InvoiceLine" "0" "unbounded" (some [])),
         ("id", ElemInfo.mk "ID" "cbc:ID" "0" "1" (some []))])))
      "invoiceline" = some (Json.arr [Json.str "L1", Json.str "L1"])
    ∧ dlookup (mergePages
      [[("id", Json.str "X"), ("invoiceline", Json.arr [Json.str "L1"])],
       [("id", Json.str "X"), ("invoiceline", Json.arr [Json.str "L1"])]]
      (some (SchemaCache.mk none none
        [("invoiceline",
          ElemInfo.mk "InvoiceLine" "cac:InvoiceLine" "0" "unbounded" (some [])),
         ("id", ElemInfo.mk "ID" "cbc:ID" "0" "1" (some []))])))
      "id" = some (Json.str "X") :=
  ⟨(c7_merge_page_with_itself
      (SchemaCache.mk none none
        [("invoiceline",
          ElemInfo.mk "InvoiceLine" "cac:InvoiceLine" "0" "unbounded" (some [])),
         ("id", ElemInfo.mk "ID" "cbc:ID" "0" "1" (some []))])
      [("id", Json.str "X"), ("invoiceline", Json.arr [Json.str "L1"])]
      (by decide) (by decide)).1 "invoiceline" [Json.str "L1"]
      (by decide) rfl rfl (List.cons_ne_nil _ _),
   (c7_merge_page_with_itself
      (SchemaCache.mk none none
        [("invoiceline",
          ElemInfo.mk "InvoiceLine" "cac:InvoiceLine" "0" "unbounded" (some [])),
         ("id", ElemInfo.mk "ID" "cbc:ID" "0" "1" (some []))])
      [("id", Json.str "X"), ("invoiceline", Json.arr [Json.str "L1"])]
      (by decide) (by decide)).2 "id" (Json.str "X") rfl rfl⟩

mutual

theorem ShapeEq_refl : ∀ (e : Elem), ShapeEq e e
  | Elem.mk ns tag attrs text children =>
      ShapeEq.mk ns tag attrs attrs text text children children
        (shapeEqList_refl children)

theorem shapeEqList_refl : ∀ (l : List Elem), List.Forall₂ ShapeEq l l
  | [] => List.Forall₂.nil
  | c :: rest => List.Forall₂.cons (ShapeEq_refl c) (shapeEqList_refl rest)

end

theorem joinMap_forall₂ {R : β → β → Prop} {f g : α → List β} :
    ∀ {l : List α}, (∀ a ∈ l, List.Forall₂ R (f a) (g a)) →
      List.Forall₂ R (joinMap f l) (joinMap g l) := by
  intro l
  induction l with
  | nil => intro _; exact List.Forall₂.nil
  | cons a rest ih =>
      intro h
      have hstep : List.Forall₂ R (f a) (g a) := h a (List.Mem.head _)
      have hrest := ih (fun a' ha' => h a' (List.mem_cons_of_mem _ ha'))
      simpa [joinMap] using List.rel_append hstep hrest

theorem dlookup_isSome_iff {d : List (String × α)} {k : String} :
    (dlookup d k).isSome = true ↔ k ∈ dkeys d := by
  induction d with
  | nil => simp [dlookup, dkeys]
  | cons kv rest ih =>
      rcases kv with ⟨k1, v1⟩
      by_cases he : k = k1
      · subst he
        simp [dlookup_cons_self, dkeys]
      · rw [dlookup_cons_ne he]
        simp only [dkeys, List.map_cons, List.mem_cons]
        rw [ih]
        constructor
        · intro h; exact Or.inr (by simpa [dkeys] using h)
        · rintro (h | h)
          · exact absurd h.symm (Ne.symm he)
          · simpa [dkeys] using h

theorem dlookup_none_of_not_mem {d : List (String × α)} {k : String}
    (h : k ∉ dkeys d) : dlookup d k = none := by
  cases hl : dlookup d k with
  | none => rfl
  | some v =>
      exact absurd (dlookup_isSome_iff.mp (by rw [hl]; rfl)) h

theorem jequivPairs_keys {l1 : List (String × Json)} :
    ∀ {l2 : List (String × Json)}, JEquivPairs l1 l2 → dkeys l1 = dkeys l2 := by
  induction l1 with
  | nil =>
      intro l2 h
      cases h
      rfl
  | cons kv rest ih =>
      intro l2 h
      cases h with
      | cons k hv hrest =>
          have h2 := ih hrest
          simp only [dkeys, List.map_cons] at h2 ⊢
          rw [h2]

theorem jequivPairs_mem_left {k : String} {v : Json} :
    ∀ {l1 l2 : List (String × Json)}, JEquivPairs l1 l2 → (k, v) ∈ l1 →
      ∃ w, (k, w) ∈ l2 ∧ JEquiv v w := by
  intro l1
  induction l1 with
  | nil =>
      intro l2 h hmem
      cases hmem
  | cons kv rest ih =>
      intro l2 h hmem
      cases h with
      | cons k1 hvw hrest =>
          rcases List.mem_cons.mp hmem with heq | hmemr
          · cases heq
            exact ⟨_, List.Mem.head _, hvw⟩
          · obtain ⟨w, hw, hvw2⟩ := ih hrest hmemr
            exact ⟨w, List.mem_cons_of_mem _ hw, hvw2⟩

theorem jequiv_obj_keys_perm {l1 l2 : List (String × Json)}
    (h : JEquiv (Json.obj l1) (Json.obj l2)) : (dkeys l1).Perm (dkeys l2) := by
  cases h with
  | obj hpairs hperm =>
      rw [jequivPairs_keys hpairs]
      exact hperm.map (fun kv => kv.1)

theorem jequiv_obj_lookup {l1 l2 : List (String × Json)} {dk : String} {v1 : Json}
    (h : JEquiv (Json.obj l1) (Json.obj l2))
    (hnd2 : (dkeys l2).Nodup)
    (h1 : dlookup l1 dk = some v1) :
    ∃ v2, dlookup l2 dk = some v2 ∧ JEquiv v1 v2 := by
  cases h with
  | obj hpairs hperm =>
      obtain ⟨w, hw, hvw⟩ := jequivPairs_mem_left hpairs (mem_of_dlookup h1)
      exact ⟨w, dlookup_of_mem hnd2 (hperm.mem_iff.mp hw), hvw⟩

theorem dataKeyForLower_congr {kvs1 kvs2 : List (String × Json)} (klow : String)
    (hnd1 : ((dkeys kvs1).map strLower).Nodup)
    (hnd2 : ((dkeys kvs2).map strLower).Nodup)
    (hperm : (dkeys kvs1).Perm (dkeys kvs2)) :
    dataKeyForLower kvs1 klow = dataKeyForLower kvs2 klow := by
  by_cases hex : ∃ k ∈ dkeys kvs1, strLower k = klow
  · obtain ⟨k, hk, rfl⟩ := hex
    rw [dataKeyForLower_self hnd1 k hk,
      dataKeyForLower_self hnd2 k (hperm.mem_iff.mp hk)]
  · push_neg at hex
    rw [dataKeyForLower_none (fun kv hkv => hex kv.1
        (List.mem_map.mpr ⟨kv, hkv, rfl⟩)),
      dataKeyForLower_none (fun kv hkv => hex kv.1
        (hperm.mem_iff.mpr (List.mem_map.mpr ⟨kv, hkv, rfl⟩)))]

theorem wfRec_succ_parts {fuel : Nat} {spec : Spec} {kvs : List (String × Json)}
    (h : wfRec (fuel + 1) spec (Json.obj kvs) = true) :
    ((dkeys kvs).map strLower).Nodup ∧
      ∀ e ∈ spec, wfEntry (fun s d => wfRec fuel s d) kvs e = true := by
  simp only [wfRec, Bool.and_eq_true, decide_eq_true_eq, List.all_eq_true] at h
  exact h

theorem forall₂_map_of_mem {R : α → α → Prop} {S : β → β → Prop}
    {f g : α → β} :
    ∀ {xs ys : List α}, List.Forall₂ R xs ys →
      (∀ x ∈ xs, ∀ y ∈ ys, R x y → S (f x) (g y)) →
      List.Forall₂ S (xs.map f) (ys.map g) := by
  intro xs
  induction xs with
  | nil =>
      intro ys h _
      cases h
      exact List.Forall₂.nil
  | cons x rest ih =>
      intro ys h hp
      cases h with
      | cons hxy hrest =>
          exact List.Forall₂.cons
            (hp x (List.Mem.head _) _ (List.Mem.head _) hxy)
            (ih hrest (fun a ha b hb hr =>
              hp a (List.mem_cons_of_mem _ ha) b (List.mem_cons_of_mem _ hb) hr))

theorem jequivList_forall₂ {xs : List Json} :
    ∀ {ys : List Json}, JEquivList xs ys → List.Forall₂ JEquiv xs ys := by
  induction xs with
  | nil =>
      intro ys h
      cases h
      exact List.Forall₂.nil
  | cons x rest ih =>
      intro ys h
      cases h with
      | cons hxy hrest => exact List.Forall₂.cons hxy (ih hrest)

theorem jequiv_obj_isSome {fs1 fs2 : List (String × Json)} (k : String)
    (h : JEquiv (Json.obj fs1) (Json.obj fs2)) :
    (dlookup fs1 k).isSome = (dlookup fs2 k).isSome := by
  have hperm := jequiv_obj_keys_perm h
  by_cases hm : k ∈ dkeys fs1
  · rw [dlookup_isSome_iff.mpr hm, dlookup_isSome_iff.mpr (hperm.mem_iff.mp hm)]
  · rw [dlookup_none_of_not_mem hm,
      dlookup_none_of_not_mem (fun hc => hm (hperm.mem_iff.mpr hc))]

theorem serializeEntry_tag
    (recur : Json → Spec → String → List Elem)
    (kvs : List (String × Json)) (parentNs : String) (entry : String × ElemInfo) :
    ∀ el ∈ serializeEntry recur kvs parentNs entry,
      el.tag = displayName entry.1 entry.2 := by
  intro el hel
  simp only [serializeEntry] at hel
  repeat' split at hel
  all_goals first
    | exact absurd hel (List.not_mem_nil _)
    | (rw [List.mem_singleton] at hel
       subst hel
       rfl)
    | (rw [List.mem_map] at hel
       obtain ⟨item, hmem, hitem⟩ := hel
       split at hitem <;>
         (subst hitem
          rfl))

theorem map_joinMap {f : α → List β} {g : β → γ} {l : List α} :
    (joinMap f l).map g = joinMap (fun a => (f a).map g) l := by
  induction l with
  | nil => rfl
  | cons a rest ih =>
      simp only [joinMap, List.map_cons, List.flatten_cons, List.map_append] at ih ⊢
      rw [ih]

theorem serializeEntry_shape_equiv
    (fuel : Nat) (recur1 recur2 : Json → Spec → String → List Elem)
    {l1 l2 l2m : List (String × Json)}
    (hrec : ∀ (s : Spec) (fs1 fs2 : List (String × Json)) (n : String),
      JEquiv (Json.obj fs1) (Json.obj fs2) → wfRec fuel s (Json.obj fs1) = true →
      wfRec fuel s (Json.obj fs2) = true → s.isEmpty = false →
      List.Forall₂ ShapeEq (recur1 (Json.obj fs1) s n) (recur2 (Json.obj fs2) s n))
    (hpairs : JEquivPairs l1 l2m) (hperm : l2m.Perm l2)
    (hnd1 : ((dkeys l1).map strLower).Nodup)
    (hnd2 : ((dkeys l2).map strLower).Nodup)
    (parentNs : String) (e : String × ElemInfo)
    (hwf1 : wfEntry (fun s d => wfRec fuel s d) l1 e = true)
    (hwf2 : wfEntry (fun s d => wfRec fuel s d) l2 e = true) :
    List.Forall₂ ShapeEq (serializeEntry recur1 l1 parentNs e)
      (serializeEntry recur2 l2 parentNs e) := by
  have hJ : JEquiv (Json.obj l1) (Json.obj l2) := JEquiv.obj hpairs hperm
  have hkperm : (dkeys l1).Perm (dkeys l2) := jequiv_obj_keys_perm hJ
  have hdk : dataKeyForLower l1 e.1 = dataKeyForLower l2 e.1 :=
    dataKeyForLower_congr e.1 hnd1 hnd2 hkperm
  have hnd2k : (dkeys l2).Nodup := hnd2.of_map
  by_cases hus : strStartsWith e.1 "_" = true
  · simp only [serializeEntry, if_pos hus]
    exact List.Forall₂.nil
  · cases hcase : dataKeyForLower l1 e.1 with
    | none =>
        have hcase2 : dataKeyForLower l2 e.1 = none := hdk.symm.trans hcase
        simp only [serializeEntry, if_neg hus, hcase, hcase2]
        exact List.Forall₂.nil
    | some dk =>
        have hcase2 : dataKeyForLower l2 e.1 = some dk := hdk.symm.trans hcase
        cases h1 : dlookup l1 dk with
        | none =>
            have hmem := (strLower_eq_of_dataKeysLower hcase).2
            have hs := dlookup_isSome_iff.mpr hmem
            rw [h1] at hs
            simp at hs
        | some v1 =>
            obtain ⟨v2, h2c, hv⟩ := jequiv_obj_lookup hJ hnd2k h1
            cases hv with
            | null =>
                simp only [serializeEntry, if_neg hus, hcase, hcase2, h1, h2c]
                exact shapeEqList_refl _
            | bool b =>
                simp only [serializeEntry, if_neg hus, hcase, hcase2, h1, h2c]
                exact shapeEqList_refl _
            | int n =>
                simp only [serializeEntry, if_neg hus, hcase, hcase2, h1, h2c]
                exact shapeEqList_refl _
            | str s =>
                simp only [serializeEntry, if_neg hus, hcase, hcase2, h1, h2c]
                exact shapeEqList_refl _
            | arr hlist =>
                by_cases hmax : (e.2.maxOccurs == "unbounded") = true
                · simp only [serializeEntry, if_neg hus, hcase, hcase2, h1, h2c,
                    if_pos hmax]
                  simp only [wfEntry, hcase, h1, if_pos hmax] at hwf1
                  simp only [wfEntry, hcase2, h2c, if_pos hmax] at hwf2
                  refine forall₂_map_of_mem (jequivList_forall₂ hlist) ?_
                  intro x hx y hy hxy
                  have hwx := List.all_eq_true.mp hwf1 x hx
                  have hwy := List.all_eq_true.mp hwf2 y hy
                  cases hxy with
                  | obj hp2 hpm2 =>
                      simp only [Bool.and_eq_true, Bool.not_eq_true'] at hwx hwy
                      exact ShapeEq.mk _ _ _ _ _ _ _ _
                        (hrec _ _ _ _ (JEquiv.obj hp2 hpm2) hwx.2 hwy.2 hwx.1)
                  | null => exact ShapeEq.mk _ _ _ _ _ _ _ _ List.Forall₂.nil
                  | bool b => exact ShapeEq.mk _ _ _ _ _ _ _ _ List.Forall₂.nil
                  | int n => exact ShapeEq.mk _ _ _ _ _ _ _ _ List.Forall₂.nil
                  | str s => exact ShapeEq.mk _ _ _ _ _ _ _ _ List.Forall₂.nil
                  | arr h2l =>
                      exact ShapeEq.mk _ _ _ _ _ _ _ _ List.Forall₂.nil
                · simp only [serializeEntry, if_neg hus, hcase, hcase2, h1, h2c,
                    if_neg hmax]
                  cases jequivList_forall₂ hlist with
                  | nil => exact shapeEqList_refl _
                  | cons hxy hrest =>
                      cases hxy with
                      | obj hp2 hpm2 =>
                          simp only [wfEntry, hcase, h1, if_neg hmax] at hwf1
                          simp only [wfEntry, hcase2, h2c, if_neg hmax] at hwf2
                          simp only [Bool.and_eq_true, Bool.not_eq_true'] at hwf1 hwf2
                          exact List.Forall₂.cons
                            (ShapeEq.mk _ _ _ _ _ _ _ _
                              (hrec _ _ _ _ (JEquiv.obj hp2 hpm2) hwf1.2 hwf2.2 hwf1.1))
                            List.Forall₂.nil
                      | null => exact shapeEqList_refl _
                      | bool b => exact shapeEqList_refl _
                      | int n => exact shapeEqList_refl _
                      | str s => exact shapeEqList_refl _
                      | arr h2l =>
                          exact List.Forall₂.cons
                            (ShapeEq.mk _ _ _ _ _ _ _ _ List.Forall₂.nil)
                            List.Forall₂.nil
            | obj hp2 hpm2 =>
                rename_i fsa fsb fsm
                by_cases hmax : (e.2.maxOccurs == "unbounded") = true
                · simp only [serializeEntry, if_neg hus, hcase, hcase2, h1, h2c,
                    if_pos hmax]
                  simp only [wfEntry, hcase, h1, if_pos hmax] at hwf1
                  simp only [wfEntry, hcase2, h2c, if_pos hmax] at hwf2
                  simp only [Bool.and_eq_true, Bool.not_eq_true'] at hwf1 hwf2
                  exact List.Forall₂.cons
                    (ShapeEq.mk _ _ _ _ _ _ _ _
                      (hrec _ _ _ _ (JEquiv.obj hp2 hpm2) hwf1.2 hwf2.2 hwf1.1))
                    List.Forall₂.nil
                · have hval := jequiv_obj_isSome "value" (JEquiv.obj hp2 hpm2)
                  simp only [serializeEntry, if_neg hus, hcase, hcase2, h1, h2c,
                    if_neg hmax, ← hval]
                  by_cases hattr :
                      ((dlookup fsa "value").isSome && (e.2.nested.getD []).isEmpty) = true
                  · simp only [if_pos hattr]
                    exact List.Forall₂.cons
                      (ShapeEq.mk _ _ _ _ _ _ _ _ List.Forall₂.nil)
                      List.Forall₂.nil
                  · simp only [if_neg hattr]
                    simp only [wfEntry, hcase, h1, if_neg hmax, if_neg hattr] at hwf1
                    simp only [wfEntry, hcase2, h2c, if_neg hmax, ← hval,
                      if_neg hattr] at hwf2
                    simp only [Bool.and_eq_true, Bool.not_eq_true'] at hwf1 hwf2
                    exact List.Forall₂.cons
                      (ShapeEq.mk _ _ _ _ _ _ _ _
                        (hrec _ _ _ _ (JEquiv.obj hp2 hpm2) hwf1.2 hwf2.2 hwf1.1))
                      List.Forall₂.nil

theorem serializeRec_shape_equiv (lookupName : String → Option String) :
    ∀ (fuel : Nat) (d1 d2 : Json) (spec : Spec) (parentNs : String),
      JEquiv d1 d2 → wfRec fuel spec d1 = true → wfRec fuel spec d2 = true →
      spec.isEmpty = false →
      List.Forall₂ ShapeEq (serializeRec lookupName fuel d1 spec parentNs)
        (serializeRec lookupName fuel d2 spec parentNs) := by
  intro fuel
  induction fuel with
  | zero =>
      intro d1 d2 spec ns _ _ _ _
      exact List.Forall₂.nil
  | succ fuel ih =>
      intro d1 d2 spec ns hequiv hwf1 hwf2 hne
      cases hequiv with
      | null => exact List.Forall₂.nil
      | bool b => exact List.Forall₂.nil
      | int n => exact List.Forall₂.nil
      | str s => exact List.Forall₂.nil
      | arr hlist => exact List.Forall₂.nil
      | obj hpairs hperm =>
          obtain ⟨hnd1, hents1⟩ := wfRec_succ_parts hwf1
          obtain ⟨hnd2, hents2⟩ := wfRec_succ_parts hwf2
          simp only [serializeRec, hne, Bool.false_eq_true, if_false]
          refine joinMap_forall₂ ?_
          intro e he
          exact serializeEntry_shape_equiv fuel _ _
            (fun s fs1 fs2 n hJ hw1 hw2 hb =>
              ih (Json.obj fs1) (Json.obj fs2) s n hJ hw1 hw2 hb)
            hpairs hperm hnd1 hnd2 ns e (hents1 e he) (hents2 e he)

theorem serializeRec_schema_order (lookupName : String → Option String)
    (fuel : Nat) (kvs : List (String × Json)) (spec : Spec) (parentNs : String)
    (hne : spec.isEmpty = false) :
    (serializeRec lookupName (fuel + 1) (Json.obj kvs) spec parentNs).map Elem.tag
      = joinMap (fun e =>
          List.replicate
            (serializeEntry (fun d s n => serializeRec lookupName fuel d s n)
              kvs parentNs e).length
            (displayName e.1 e.2)) spec := by
  simp only [serializeRec, hne, Bool.false_eq_true, if_false]
  rw [map_joinMap]
  unfold joinMap
  congr 1
  apply List.map_congr_left
  intro e _
  have htag := serializeEntry_tag
    (fun d s n => serializeRec lookupName fuel d s n) kvs parentNs e
  have hmem : ∀ b ∈ (serializeEntry
      (fun d s n => serializeRec lookupName fuel d s n) kvs parentNs e).map Elem.tag,
      b = displayName e.1 e.2 := by
    intro b hb
    obtain ⟨el, hel, rfl⟩ := List.mem_map.mp hb
    exact htag el hel
  have hrep := List.eq_replicate_of_mem hmem
  rwa [List.length_map] at hrep

/-- C2 (corrected): for a fixed schema spec, two input documents that contain
the same key-value data and differ only in JSON key order (JEquiv) serialize
to XML with identical element order and structure - same length, same
namespaces and tags pairwise, recursively shape-equal children - and that
order is the schema's declared entry order (the output tag sequence is one
block per schema entry, in spec order, repeating the entry's display name);
PROVIDED every visited dict keeps pairwise-distinct lowercased keys and every
recursed-into object has a non-empty governing nested spec (wfRec).  The
unconditional claim is false: case-colliding keys make the last-wins
data_keys_lower map of serializer.py line 126 order-sensitive
(c2_counterexample), and the empty-spec fallback follows input key order. -/
theorem c2_schema_order_determinism (lookupName : String → Option String)
    (fuel : Nat) (kvs1 kvs2 : List (String × Json)) (spec : Spec)
    (parentNs : String)
    (hequiv : JEquiv (Json.obj kvs1) (Json.obj kvs2))
    (hwf1 : wfRec (fuel + 1) spec (Json.obj kvs1) = true)
    (hwf2 : wfRec (fuel + 1) spec (Json.obj kvs2) = true)
    (hne : spec.isEmpty = false) :
    List.Forall₂ ShapeEq
        (serializeRec lookupName (fuel + 1) (Json.obj kvs1) spec parentNs)
        (serializeRec lookupName (fuel + 1) (Json.obj kvs2) spec parentNs)
    ∧ (serializeRec lookupName (fuel + 1) (Json.obj kvs1) spec parentNs).map Elem.tag
        = joinMap (fun e =>
            List.replicate
              (serializeEntry (fun d s n => serializeRec lookupName fuel d s n)
                kvs1 parentNs e).length
              (displayName e.1 e.2)) spec :=
  ⟨serializeRec_shape_equiv lookupName (fuel + 1) (Json.obj kvs1) (Json.obj kvs2)
      spec parentNs hequiv hwf1 hwf2 hne,
    serializeRec_schema_order lookupName fuel kvs1 spec parentNs hne⟩

/-- Witness for C2: the documents \x7b"id": "1", "note": "hello"\x7d and
\x7b"note": "hello", "id": "1"\x7d under a two-entry schema serialize to
shape-equal element lists in schema order. -/
theorem c2_schema_order_determinism_witness :
    List.Forall₂ ShapeEq
        (serializeRec (fun _ => none) 1
          (Json.obj [("id", Json.str "1"), ("note", Json.str "hello")])
          [("id", ElemInfo.mk "ID" "cbc:ID" "1" "1" (some [])),
           ("note", ElemInfo.mk "Note" "cbc:Note" "0" "1" (some []))] "p")
        (serializeRec (fun _ => none) 1
          (Json.obj [("note", Json.str "hello"), ("id", Json.str "1")])
          [("id", ElemInfo.mk "ID" "cbc:ID" "1" "1" (some [])),
           ("note", ElemInfo.mk "Note" "cbc:Note" "0" "1" (some []))] "p")
    ∧ (serializeRec (fun _ => none) 1
          (Json.obj [("id", Json.str "1"), ("note", Json.str "hello")])
          [("id", ElemInfo.mk "ID" "cbc:ID" "1" "1" (some [])),
           ("note", ElemInfo.mk "Note" "cbc:Note" "0" "1" (some []))] "p").map Elem.tag
        = joinMap (fun e =>
            List.replicate
              (serializeEntry (fun d s n => serializeRec (fun _ => none) 0 d s n)
                [("id", Json.str "1"), ("note", Json.str "hello")] "p" e).length
              (displayName e.1 e.2))
            [("id", ElemInfo.mk "ID" "cbc:ID" "1" "1" (some [])),
             ("note", ElemInfo.mk "Note" "cbc:Note" "0" "1" (some []))] :=
  c2_schema_order_determinism (fun _ => none) 0
    [("id", Json.str "1"), ("note", Json.str "hello")]
    [("note", Json.str "hello"), ("id", Json.str "1")]
    [("id", ElemInfo.mk "ID" "cbc:ID" "1" "1" (some [])),
     ("note", ElemInfo.mk "Note" "cbc:Note" "0" "1" (some []))] "p"
    (JEquiv.obj
      (JEquivPairs.cons "id" (JEquiv.str "1")
        (JEquivPairs.cons "note" (JEquiv.str "hello") JEquivPairs.nil))
      (List.Perm.swap ("note", Json.str "hello") ("id", Json.str "1") []))
    (by decide) (by decide) rfl

/-- C2 counterexample to the unconditional claim: the documents
\x7b"ID": null, "id": "2"\x7d and \x7b"id": "2", "ID": null\x7d contain the
same key-value pairs in different order, yet one serializes to one element
and the other to none, because the last-wins lowercase key map picks a
different original key for "id" in each order. -/
theorem c2_counterexample :
    ([("ID", Json.null), ("id", Json.str "2")] : List (String × Json)).Perm
        [("id", Json.str "2"), ("ID", Json.null)]
    ∧ (serializeRec (fun _ => none) 1
        (Json.obj [("ID", Json.null), ("id", Json.str "2")])
        [("id", ElemInfo.mk "ID" "cbc:ID" "0" "1" (some []))] "p").length = 1
    ∧ (serializeRec (fun _ => none) 1
        (Json.obj [("id", Json.str "2"), ("ID", Json.null)])
        [("id", ElemInfo.mk "ID" "cbc:ID" "0" "1" (some []))] "p").length = 0 :=
  ⟨List.Perm.swap ("id", Json.str "2") ("ID", Json.null) [], rfl, rfl⟩

end J2U
